import Mathlib

/-!
# A verification model of the tedium TDMS library

Shallow embedding of the library's core: the endian-parametric binary
codec (`src/data_types.rs`), the segment index builder
(`src/index.rs`), the data-block construction and read planning
(`src/raw_data/mod.rs`) and the file writer
(`src/file/file_writer.rs`).

Rust `u64` values are modelled as `Nat` together with explicit wrapping
operations modulo `2 ^ 64`; byte streams are `List Nat` with one byte
per element; fallible operations return `Option` and Rust panics are
modelled by an explicit `ScanStep.panicked` result carrying the state
reached when the panic fires.
-/

namespace Tedium

/-- 64-bit wrapping addition, modelling Rust `u64` addition. -/
def u64add (a b : Nat) : Nat := (a + b) % 2 ^ 64

/-- 64-bit wrapping subtraction, modelling Rust `u64` subtraction
(release-profile wrapping semantics). -/
def u64sub (a b : Nat) : Nat := (a + (2 ^ 64 - b % 2 ^ 64)) % 2 ^ 64

/-! ## Binary codec (`src/data_types.rs`)

Each Rust storage type's `read_le` / `read_be` / `write_le` /
`write_be` / `size` is translated.  A byte stream is a `List Nat`; a
read consumes bytes from the front and returns the value together with
the remaining stream, or `none` where `read_exact` would fail. -/

/-- Little-endian byte image of a width-`w` value
(Rust `to_le_bytes`, one byte per list element). -/
def toLeBytes : Nat → Nat → List Nat
  | 0, _ => []
  | w + 1, v => v % 256 :: toLeBytes w (v / 256)

/-- Big-endian byte image (Rust `to_be_bytes`). -/
def toBeBytes (w v : Nat) : List Nat := (toLeBytes w v).reverse

/-- Value of a little-endian byte list (Rust `from_le_bytes`);
entries are taken modulo 256 as bytes. -/
def fromLeBytes : List Nat → Nat
  | [] => 0
  | b :: rest => b % 256 + 256 * fromLeBytes rest

/-- Value of a big-endian byte list (Rust `from_be_bytes`). -/
def fromBeBytes (bs : List Nat) : Nat := fromLeBytes bs.reverse

/-- Model of `Read::read_exact` into an `n`-byte buffer: fails when the
stream is too short. -/
def readExact (n : Nat) (stream : List Nat) : Option (List Nat × List Nat) :=
  if n ≤ stream.length then some (stream.take n, stream.drop n) else none

/-- `u8::write_le` from the `numeric_type!` macro expansion. -/
def U8.write_le (v : Nat) : List Nat := toLeBytes 1 v

/-- `u8::write_be`. -/
def U8.write_be (v : Nat) : List Nat := toBeBytes 1 v

/-- `u8::read_le`. -/
def U8.read_le (s : List Nat) : Option (Nat × List Nat) :=
  (readExact 1 s).map (fun p => (fromLeBytes p.1, p.2))

/-- `u8::read_be`. -/
def U8.read_be (s : List Nat) : Option (Nat × List Nat) :=
  (readExact 1 s).map (fun p => (fromBeBytes p.1, p.2))

/-- `u8::size` (`size_of::<u8>()`). -/
def U8.size (_v : Nat) : Nat := 1

/-- Two's-complement interpretation of a 32-bit pattern
(`i32::from_le_bytes` applied to the pattern's bytes). -/
def decodeI32 (n : Nat) : Int :=
  if n < 2 ^ 31 then (n : Int) else (n : Int) - 2 ^ 32

/-- `i32::write_le`: the two's-complement byte image of the value. -/
def I32.write_le (v : Int) : List Nat := toLeBytes 4 ((v % 2 ^ 32)).toNat

/-- `i32::write_be`. -/
def I32.write_be (v : Int) : List Nat := toBeBytes 4 ((v % 2 ^ 32)).toNat

/-- `i32::read_le`. -/
def I32.read_le (s : List Nat) : Option (Int × List Nat) :=
  (readExact 4 s).map (fun p => (decodeI32 (fromLeBytes p.1), p.2))

/-- `i32::read_be`. -/
def I32.read_be (s : List Nat) : Option (Int × List Nat) :=
  (readExact 4 s).map (fun p => (decodeI32 (fromBeBytes p.1), p.2))

/-- `i32::size`. -/
def I32.size (_v : Int) : Nat := 4

/-- `u32::write_le`. -/
def U32.write_le (v : Nat) : List Nat := toLeBytes 4 v

/-- `u32::write_be`. -/
def U32.write_be (v : Nat) : List Nat := toBeBytes 4 v

/-- `u32::read_le`. -/
def U32.read_le (s : List Nat) : Option (Nat × List Nat) :=
  (readExact 4 s).map (fun p => (fromLeBytes p.1, p.2))

/-- `u32::read_be`. -/
def U32.read_be (s : List Nat) : Option (Nat × List Nat) :=
  (readExact 4 s).map (fun p => (fromBeBytes p.1, p.2))

/-- `u32::size`. -/
def U32.size (_v : Nat) : Nat := 4

/-- `u64::write_le`. -/
def U64.write_le (v : Nat) : List Nat := toLeBytes 8 v

/-- `u64::write_be`. -/
def U64.write_be (v : Nat) : List Nat := toBeBytes 8 v

/-- `u64::read_le`. -/
def U64.read_le (s : List Nat) : Option (Nat × List Nat) :=
  (readExact 8 s).map (fun p => (fromLeBytes p.1, p.2))

/-- `u64::read_be`. -/
def U64.read_be (s : List Nat) : Option (Nat × List Nat) :=
  (readExact 8 s).map (fun p => (fromBeBytes p.1, p.2))

/-- `u64::size`. -/
def U64.size (_v : Nat) : Nat := 8

/-- `f32::write_le`.  An `f32` is modelled by its IEEE-754 bit
pattern; `to_le_bytes` is exactly the little-endian byte image of that
pattern. -/
def F32.write_le (bits : Nat) : List Nat := toLeBytes 4 bits

/-- `f32::write_be`. -/
def F32.write_be (bits : Nat) : List Nat := toBeBytes 4 bits

/-- `f32::read_le` (bit pattern of the value read). -/
def F32.read_le (s : List Nat) : Option (Nat × List Nat) :=
  (readExact 4 s).map (fun p => (fromLeBytes p.1, p.2))

/-- `f32::read_be`. -/
def F32.read_be (s : List Nat) : Option (Nat × List Nat) :=
  (readExact 4 s).map (fun p => (fromBeBytes p.1, p.2))

/-- `f32::size`. -/
def F32.size (_bits : Nat) : Nat := 4

/-- `f64::write_le` (bit-pattern model, as for `f32`). -/
def F64.write_le (bits : Nat) : List Nat := toLeBytes 8 bits

/-- `f64::write_be`. -/
def F64.write_be (bits : Nat) : List Nat := toBeBytes 8 bits

/-- `f64::read_le`. -/
def F64.read_le (s : List Nat) : Option (Nat × List Nat) :=
  (readExact 8 s).map (fun p => (fromLeBytes p.1, p.2))

/-- `f64::read_be`. -/
def F64.read_be (s : List Nat) : Option (Nat × List Nat) :=
  (readExact 8 s).map (fun p => (fromBeBytes p.1, p.2))

/-- `f64::size`. -/
def F64.size (_bits : Nat) : Nat := 8

/-- Checks that a cont byte lies in `[lo, hi]`. -/
def contByte (c lo hi : Nat) : Bool := decide (lo ≤ c) && decide (c ≤ hi)

/-- UTF-8 validity of a byte list, modelling `String::from_utf8`'s
check (RFC 3629 table: no overlong forms, no surrogates, max
`U+10FFFF`). -/
def utf8Valid : List Nat → Bool
  | [] => true
  | b :: rest =>
    if b ≤ 0x7F then utf8Valid rest
    else if 0xC2 ≤ b ∧ b ≤ 0xDF then
      match rest with
      | c :: r => contByte c 0x80 0xBF && utf8Valid r
      | [] => false
    else if b = 0xE0 then
      match rest with
      | c :: d :: r => contByte c 0xA0 0xBF && contByte d 0x80 0xBF && utf8Valid r
      | _ => false
    else if (0xE1 ≤ b ∧ b ≤ 0xEC) ∨ b = 0xEE ∨ b = 0xEF then
      match rest with
      | c :: d :: r => contByte c 0x80 0xBF && contByte d 0x80 0xBF && utf8Valid r
      | _ => false
    else if b = 0xED then
      match rest with
      | c :: d :: r => contByte c 0x80 0x9F && contByte d 0x80 0xBF && utf8Valid r
      | _ => false
    else if b = 0xF0 then
      match rest with
      | c :: d :: e :: r =>
        contByte c 0x90 0xBF && contByte d 0x80 0xBF && contByte e 0x80 0xBF && utf8Valid r
      | _ => false
    else if 0xF1 ≤ b ∧ b ≤ 0xF3 then
      match rest with
      | c :: d :: e :: r =>
        contByte c 0x80 0xBF && contByte d 0x80 0xBF && contByte e 0x80 0xBF && utf8Valid r
      | _ => false
    else if b = 0xF4 then
      match rest with
      | c :: d :: e :: r =>
        contByte c 0x80 0x8F && contByte d 0x80 0xBF && contByte e 0x80 0xBF && utf8Valid r
      | _ => false
    else false

/-- A TDMS string value, modelled by its UTF-8 byte list.
`String::write_le` emits the `u32` length then the bytes. -/
def TdmsString.write_le (s : List Nat) : List Nat := toLeBytes 4 s.length ++ s

/-- `String::write_be` (only the length word changes byte order). -/
def TdmsString.write_be (s : List Nat) : List Nat := toBeBytes 4 s.length ++ s

/-- `String::read_le`: length word, then `read_string_with_length`,
whose `String::from_utf8` rejects invalid UTF-8. -/
def TdmsString.read_le (st : List Nat) : Option (List Nat × List Nat) :=
  (readExact 4 st).bind fun p1 =>
    (readExact (fromLeBytes p1.1) p1.2).bind fun p2 =>
      if utf8Valid p2.1 then some (p2.1, p2.2) else none

/-- `String::read_be`. -/
def TdmsString.read_be (st : List Nat) : Option (List Nat × List Nat) :=
  (readExact 4 st).bind fun p1 =>
    (readExact (fromBeBytes p1.1) p1.2).bind fun p2 =>
      if utf8Valid p2.1 then some (p2.1, p2.2) else none

/-- `String::size`: `self.len() + size_of::<u32>()`. -/
def TdmsString.size (s : List Nat) : Nat := s.length + 4

/-! ## File-format data model

`ObjectMetaData`, `RawDataIndex`, `SegmentMetaData`, `ToC` and
`PropertyValue` live in the repository's `file_types` / `meta_data`
module, which is not under `src/`; they are modelled from the spec's
data-model section, matching every field access made by the sources
that are under `src/`. -/

/-- On-disk type tags, translated from the `DataType` enum in
`src/data_types.rs` (tag values are not needed by the claims). -/
inductive DataType where
  | void | i8 | i16 | i32 | i64 | u8 | u16 | u32 | u64
  | singleFloat | doubleFloat | extendedFloat
  | singleFloatWithUnit | doubleFloatWithUnit | extendedFloatWithUnit
  | tdmsString | boolean | timeStamp | fixedPoint
  | complexSingleFloat | complexDoubleFloat | daqmxRawData
  deriving DecidableEq, Repr

/-- Modelled from the spec: `PropertyValue` is a tagged union over the
value types permitted in object properties (integers, floats, string,
timestamp, boolean); equality is structural.  Floats are carried as
bit patterns. -/
inductive PropertyValue where
  | i32 (v : Int)
  | u32 (v : Nat)
  | u64 (v : Nat)
  | f64 (bits : Nat)
  | string (s : String)
  | boolean (b : Bool)
  | timestamp (seconds : Int) (fractions : Nat)
  deriving DecidableEq, Repr

/-- `RawDataMeta`: the fixed part of a raw-data index record. -/
structure RawDataMeta where
  data_type : DataType
  number_of_values : Nat
  total_size_bytes : Option Nat
  deriving DecidableEq, Repr

/-- Modelled from the spec: `RawDataIndex` is one of `None` (no data
this segment), `MatchPrevious`, `RawData{...}`, or a recognized but
uninterpreted DAQmx variant. -/
inductive RawDataIndex where
  | none
  | matchPrevious
  | rawData (meta : RawDataMeta)
  | daqmx
  deriving DecidableEq, Repr

/-- Modelled from the spec: one object's entry in a segment's metadata
block. -/
structure ObjectMetaData where
  path : String
  properties : List (String × PropertyValue)
  raw_data_index : RawDataIndex
  deriving DecidableEq, Repr

/-- Modelled from the spec: the ToC bitfield, one `Bool` per flag,
with the field names used by the sources under `src/`. -/
structure ToC where
  contains_meta_data : Bool
  contains_raw_data : Bool
  contains_daqmx_raw_data : Bool
  data_is_interleaved : Bool
  big_endian : Bool
  contains_new_object_list : Bool
  deriving DecidableEq, Repr

/-- `ToC::default()`: every flag clear. -/
def defaultToC : ToC :=
  { contains_meta_data := false
    contains_raw_data := false
    contains_daqmx_raw_data := false
    data_is_interleaved := false
    big_endian := false
    contains_new_object_list := false }

/-- Modelled from the spec: a decoded segment's metadata as consumed
by `FileScanner::add_segment_to_index`. -/
structure SegmentMetaData where
  toc : ToC
  next_segment_offset : Nat
  raw_data_offset : Nat
  objects : List ObjectMetaData
  deriving DecidableEq, Repr

/-- Modelled from the spec: the lead-in is exactly 28 bytes
(`LEAD_IN_BYTES` lives in the `meta_data` module, not under `src/`). -/
def LEAD_IN_BYTES : Nat := 28

/-- Modelled from the spec: the total segment size is
`next_segment_offset + lead_in_bytes` (`SegmentMetaData::total_size_bytes`
lives in the `file_types` module, not under `src/`). -/
def SegmentMetaData.total_size_bytes (g : SegmentMetaData) : Nat :=
  u64add g.next_segment_offset LEAD_IN_BYTES

/-! ## Raw data blocks (`src/raw_data/mod.rs`) -/

/-- `DataLayout` from `src/raw_data/mod.rs` (source spelling kept). -/
inductive DataLayout where
  | interleaved
  | contigious
  deriving DecidableEq, Repr

/-- `Endianess` from `src/raw_data/mod.rs`. -/
inductive Endianess where
  | big
  | little
  deriving DecidableEq, Repr

/-- `DataBlock` from `src/raw_data/mod.rs`. -/
structure DataBlock where
  start : Nat
  length : Nat
  layout : DataLayout
  channels : List RawDataMeta
  byte_order : Endianess
  deriving DecidableEq, Repr

/-- `DataBlock::from_segment` from `src/raw_data/mod.rs`. -/
def DataBlock.from_segment (segment : SegmentMetaData) (segment_start : Nat)
    (active_channels_meta : List RawDataMeta) : DataBlock :=
  { start := u64add (u64add segment.raw_data_offset LEAD_IN_BYTES) segment_start
    length := u64sub segment.next_segment_offset segment.raw_data_offset
    layout := if segment.toc.data_is_interleaved then .interleaved else .contigious
    channels := active_channels_meta
    byte_order := if segment.toc.big_endian then .big else .little }

/-- `Option`-valued map over a list, failing as soon as one element
fails (the collect pattern used by the scanner and the read planner). -/
def omap (f : α → Option β) : List α → Option (List β)
  | [] => some []
  | a :: rest =>
    match f a with
    | Option.none => Option.none
    | some b =>
      match omap f rest with
      | Option.none => Option.none
      | some bs => some (b :: bs)

/-- Modelled from the spec: the record planner and block readers
(`raw_data/records.rs`, `raw_data/contigious_multi_channel_read.rs`
and `raw_data/interleaved_multi_channel_read.rs` are not under
`src/`).  A request is a pair of channel index and output-buffer
length; the reader places `min(number_of_values, buffer length)`
values into each requested buffer and the call returns the minimum
count placed into any requested buffer; an out-of-range channel index
fails. -/
def DataBlock.read (b : DataBlock) (channels_to_read : List (Nat × Nat)) : Option Nat :=
  match omap (fun r => (b.channels.get? r.1).map
      (fun m => min m.number_of_values r.2)) channels_to_read with
  | Option.none => Option.none
  | some counts => counts.min?

/-- `DataBlock::read_single` from `src/raw_data/mod.rs`: wrapper
around `read` for one channel. -/
def DataBlock.read_single (b : DataBlock) (channel_index buf_len : Nat) : Option Nat :=
  b.read [(channel_index, buf_len)]

/-! ## Association-list maps

`HashMap<String, V>` is modelled by an association list with unique
keys: lookup sees the first matching entry, insert replaces the value
of an existing key or appends a new entry. -/

/-- `HashMap::get`. -/
def alookup (k : String) : List (String × α) → Option α
  | [] => Option.none
  | (k', v) :: rest => if k' = k then some v else alookup k rest

/-- In-place value update through `HashMap::get_mut` (first matching
entry). -/
def aupdate (k : String) (f : α → α) : List (String × α) → List (String × α)
  | [] => []
  | (k', v) :: rest => if k' = k then (k', f v) :: rest else (k', v) :: aupdate k f rest

/-- `HashMap::insert`: replace the value of an existing key, else
append. -/
def ainsert (k : String) (v : α) : List (String × α) → List (String × α)
  | [] => [(k, v)]
  | (k', v') :: rest => if k' = k then (k', v) :: rest else (k', v') :: ainsert k v rest

/-! ## Index builder (`src/index.rs`) -/

/-- `DataLocation` from `src/index.rs`. -/
structure DataLocation where
  data_block : Nat
  channel_index : Nat
  deriving DecidableEq, Repr

/-- `DataFormat` from `src/index.rs`. -/
inductive DataFormat where
  | rawData (meta : RawDataMeta)
  deriving DecidableEq, Repr

/-- `DataFormat::from_index`. -/
def DataFormat.from_index : RawDataIndex → Option DataFormat
  | .rawData raw_meta => some (.rawData raw_meta)
  | _ => Option.none

/-- `ObjectData` from `src/index.rs`. -/
structure ObjectData where
  path : String
  properties : List (String × PropertyValue)
  data_locations : List DataLocation
  latest_data_format : Option DataFormat
  deriving DecidableEq, Repr

/-- `ObjectData::update`: merge properties last-write-wins, then
refresh `latest_data_format` when the index carries a `RawData`
format. -/
def ObjectData.update (od : ObjectData) (other : ObjectMetaData) : ObjectData :=
  { od with
    properties := other.properties.foldl (fun ps p => ainsert p.1 p.2 ps) od.properties
    latest_data_format :=
      match DataFormat.from_index other.raw_data_index with
      | some format => some format
      | Option.none => od.latest_data_format }

/-- `ObjectData::from_metadata`. -/
def ObjectData.from_metadata (meta : ObjectMetaData) : ObjectData :=
  ObjectData.update
    { path := meta.path
      properties := []
      data_locations := []
      latest_data_format := Option.none } meta

/-- `ObjectData::add_data_location`. -/
def ObjectData.add_data_location (od : ObjectData) (location : DataLocation) : ObjectData :=
  { od with data_locations := od.data_locations ++ [location] }

/-- `ActiveObject` from `src/index.rs` (holds only the path;
`ActiveObject::update` is a no-op). -/
structure ActiveObject where
  path : String
  deriving DecidableEq, Repr

/-- `FileScanner` from `src/index.rs`. -/
structure FileScanner where
  active_objects : List ActiveObject
  object_registry : List (String × ObjectData)
  data_blocks : List DataBlock
  next_segment_start : Nat
  deriving DecidableEq, Repr

/-- `FileScanner::new` (the `Default` state). -/
def FileScanner.new : FileScanner :=
  { active_objects := []
    object_registry := []
    data_blocks := []
    next_segment_start := 0 }

/-- Result of a scanner step: normal completion, or a Rust panic
carrying the state the scanner had mutated itself into when the panic
fired. -/
inductive ScanStep where
  | ok (s : FileScanner)
  | panicked (s : FileScanner)
  deriving DecidableEq, Repr

/-- Sequencing of scanner steps: a panic aborts the rest. -/
def ScanStep.andThen (r : ScanStep) (f : FileScanner → ScanStep) : ScanStep :=
  match r with
  | .ok s => f s
  | .panicked s => .panicked s

/-- `true` exactly on a panic result. -/
def ScanStep.isPanicked : ScanStep → Bool
  | .ok _ => false
  | .panicked _ => true

/-- The state carried by a panic result, if any. -/
def ScanStep.panickedState : ScanStep → Option FileScanner
  | .ok _ => Option.none
  | .panicked s => some s

/-- `FileScanner::deactivate_all_objects`. -/
def FileScanner.deactivate_all_objects (s : FileScanner) : FileScanner :=
  { s with active_objects := [] }

/-- `FileScanner::update_meta_object`: update a registered object or
insert a fresh one.  (The source's `assert!` that the insert replaced
nothing always holds: the key was just looked up and found absent.) -/
def FileScanner.update_meta_object (s : FileScanner) (object : ObjectMetaData) : FileScanner :=
  match alookup object.path s.object_registry with
  | some _ =>
    { s with object_registry := aupdate object.path (fun od => od.update object) s.object_registry }
  | Option.none =>
    { s with object_registry := ainsert object.path (ObjectData.from_metadata object) s.object_registry }

/-- `FileScanner::update_or_activate_data_object`.  When the path is
already active, `get_object_data_mut`'s `expect` panics if the path is
missing from the registry. -/
def FileScanner.update_or_activate_data_object (s : FileScanner) (object : ObjectMetaData) :
    ScanStep :=
  if s.active_objects.any (fun ao => ao.path == object.path) then
    match alookup object.path s.object_registry with
    | Option.none => .panicked s
    | some _ =>
      .ok { s with
        object_registry := aupdate object.path (fun od => od.update object) s.object_registry }
  else
    .ok (FileScanner.update_meta_object
      { s with active_objects := s.active_objects ++ [⟨object.path⟩] } object)

/-- Dispatch on `raw_data_index` inside `add_segment_to_index`'s
object loop. -/
def FileScanner.processObject (s : FileScanner) (obj : ObjectMetaData) : ScanStep :=
  match obj.raw_data_index with
  | .none => .ok (s.update_meta_object obj)
  | _ => s.update_or_activate_data_object obj

/-- The object loop of `add_segment_to_index`. -/
def FileScanner.processObjects : FileScanner → List ObjectMetaData → ScanStep
  | s, [] => .ok s
  | s, obj :: rest =>
    match FileScanner.processObject s obj with
    | .ok s' => FileScanner.processObjects s' rest
    | .panicked sp => .panicked sp

/-- `FileScanner::get_active_raw_data_meta`: collect each active
object's latest format, with both `expect`s modelled as failure. -/
def FileScanner.get_active_raw_data_meta (s : FileScanner) : Option (List RawDataMeta) :=
  omap (fun ao =>
    match alookup ao.path s.object_registry with
    | Option.none => Option.none
    | some od =>
      match od.latest_data_format with
      | Option.none => Option.none
      | some (.rawData raw) => some raw) s.active_objects

/-- The location-appending loop of `FileScanner::insert_data_block`
(`get_object_data_mut`'s `expect` modelled as a panic). -/
def FileScanner.locLoop : FileScanner → Nat → Nat → List ActiveObject → ScanStep
  | s, _, _, [] => .ok s
  | s, data_index, channel_index, ao :: rest =>
    match alookup ao.path s.object_registry with
    | Option.none => .panicked s
    | some _ =>
      let location : DataLocation :=
        { data_block := data_index, channel_index := channel_index }
      let registry' :=
        aupdate ao.path (fun od => od.add_data_location location) s.object_registry
      FileScanner.locLoop { s with object_registry := registry' }
        data_index (channel_index + 1) rest

/-- `FileScanner::insert_data_block`. -/
def FileScanner.insert_data_block (s : FileScanner) (block : DataBlock) : ScanStep :=
  let data_index := s.data_blocks.length
  FileScanner.locLoop { s with data_blocks := s.data_blocks ++ [block] }
    data_index 0 s.active_objects

/-- The raw-data branch of `add_segment_to_index`: collect the active
formats (panicking where the source's `expect`s fire) and insert the
block built by `DataBlock::from_segment`. -/
def FileScanner.rawDataStep (s2 : FileScanner) (segment : SegmentMetaData) : ScanStep :=
  match s2.get_active_raw_data_meta with
  | Option.none => ScanStep.panicked s2
  | some metas =>
    s2.insert_data_block (DataBlock.from_segment segment s2.next_segment_start metas)

/-- `FileScanner::add_segment_to_index`, with the scanner's mutation
order preserved: deactivate on a new object list, process the object
list, build and insert the data block when raw data is present, then
advance `next_segment_start`. -/
def FileScanner.add_segment_run (s : FileScanner) (segment : SegmentMetaData) : ScanStep :=
  (FileScanner.processObjects
      (if segment.toc.contains_new_object_list then s.deactivate_all_objects else s)
      segment.objects).andThen fun s2 =>
    (if segment.toc.contains_raw_data then s2.rawDataStep segment
     else ScanStep.ok s2).andThen fun s3 =>
      ScanStep.ok { s3 with
        next_segment_start := u64add s3.next_segment_start segment.total_size_bytes }

/-- `add_segment_to_index` as an `Option`: `none` when the call
panics. -/
def FileScanner.add_segment_to_index (s : FileScanner) (segment : SegmentMetaData) :
    Option FileScanner :=
  match s.add_segment_run segment with
  | .ok s' => some s'
  | .panicked _ => Option.none

/-- Submitting a list of segments to one scanner in order. -/
def FileScanner.runSegments : FileScanner → List SegmentMetaData → Option FileScanner
  | s, [] => some s
  | s, g :: rest =>
    match s.add_segment_to_index g with
    | some s' => FileScanner.runSegments s' rest
    | Option.none => Option.none

/-- `Index` from `src/index.rs`. -/
structure Index where
  objects : List (String × ObjectData)
  data_blocks : List DataBlock
  deriving DecidableEq, Repr

/-- `FileScanner::into_index`. -/
def FileScanner.into_index (s : FileScanner) : Index :=
  let s' := s.deactivate_all_objects
  { objects := s'.object_registry, data_blocks := s'.data_blocks }

/-- `Index::get_data_block`. -/
def Index.get_data_block (idx : Index) (i : Nat) : Option DataBlock :=
  idx.data_blocks.get? i

/-- `Index::get_channel_data_positions`. -/
def Index.get_channel_data_positions (idx : Index) (path : String) : Option (List DataLocation) :=
  (alookup path idx.objects).map (fun od => od.data_locations)

/-- Every active path has a registry entry (holds for every scanner
reachable from `FileScanner::new`; the source's `expect`s rely on
it). -/
def activeRegistered (s : FileScanner) : Prop :=
  ∀ ao ∈ s.active_objects, (alookup ao.path s.object_registry).isSome

/-- No path appears twice in the active list. -/
def activePathsNodup (s : FileScanner) : Prop :=
  (s.active_objects.map ActiveObject.path).Nodup

instance (s : FileScanner) : Decidable (activeRegistered s) := by
  unfold activeRegistered; infer_instance

instance (s : FileScanner) : Decidable (activePathsNodup s) := by
  unfold activePathsNodup; infer_instance

/-! ## File writer (`src/file/file_writer.rs`)

`write_channels` is translated from the source.  Its collaborators
`MultiChannelSlice::from_slice` / `data_structure`
(`raw_data/write.rs`), `Index::check_write_values` and
`TdmsWriter::write_segment` (`io/writer.rs`) are not under `src/` and
are modelled from the spec. -/

/-- A segment's metadata block (`MetaData` from the `meta_data`
module, as used by `src/file/file_writer.rs`). -/
structure MetaData where
  objects : List ObjectMetaData
  deriving DecidableEq, Repr

/-- The segment emitted by one `write_channels` call: its ToC and its
optional metadata block. -/
structure WrittenSegment where
  toc : ToC
  meta_data : Option MetaData
  deriving DecidableEq, Repr

/-- Modelled from the spec: `MultiChannelSlice::from_slice`
(`raw_data/write.rs` is not under `src/`).  The values slice is kept
abstractly as its length and element type; a length that does not
split evenly over the channels is the `WriteSliceLenMismatch`
error. -/
structure MultiChannelSlice where
  values_len : Nat
  channel_count : Nat
  elem_type : DataType
  deriving DecidableEq, Repr

/-- Modelled from the spec: `from_slice` fails unless the value count
divides evenly over the channels. -/
def MultiChannelSlice.from_slice (values_len channel_count : Nat) (elem_type : DataType) :
    Option MultiChannelSlice :=
  if channel_count ≠ 0 ∧ values_len % channel_count = 0 then
    some { values_len := values_len, channel_count := channel_count, elem_type := elem_type }
  else Option.none

/-- Modelled from the spec: `data_structure` builds one candidate
`RawDataMeta` per channel with the storage type's natural type and
`len(values) / n_channels` values. -/
def MultiChannelSlice.data_structure (m : MultiChannelSlice) : List RawDataMeta :=
  List.replicate m.channel_count
    { data_type := m.elem_type
      number_of_values := m.values_len / m.channel_count
      total_size_bytes := Option.none }

/-- The live layout held by the writer's index: the active channel
list with each channel's current data format, in order. -/
structure WriterIndex where
  live : List (String × DataFormat)
  deriving DecidableEq, Repr

/-- Modelled from the spec: `Index::check_write_values` reports
whether the candidate channels match the live layout exactly, in
order, with identical formats, and hands each channel back with a
`RawData` index for the metadata block. -/
def WriterIndex.check_write_values (idx : WriterIndex)
    (channels : List (String × DataFormat)) : Bool × List (String × RawDataIndex) :=
  (decide (idx.live = channels),
   channels.map (fun pc =>
     (pc.1, match pc.2 with | .rawData m => RawDataIndex.rawData m)))

/-- Modelled from the spec: `TdmsWriter::write_segment` emits the
segment with the given ToC, marking metadata presence and raw-data
presence in the ToC flags. -/
def write_segment (toc : ToC) (meta : Option MetaData) (raw : Option MultiChannelSlice) :
    WrittenSegment :=
  { toc := { toc with
      contains_meta_data := meta.isSome
      contains_raw_data := raw.isSome }
    meta_data := meta }

/-- `TdmsFileWriter::write_channels` from `src/file/file_writer.rs`,
with the values slice abstracted to its length and element type.
Returns the emitted segment (in the source the segment is then fed
back into the writer's own index). -/
def write_channels (idx : WriterIndex) (channels : List String) (values_len : Nat)
    (elem_type : DataType) (layout : DataLayout) : Option WrittenSegment :=
  match MultiChannelSlice.from_slice values_len channels.length elem_type with
  | Option.none => Option.none
  | some raw_data =>
    let data_structures := raw_data.data_structure.map DataFormat.rawData
    let chans := channels.zip data_structures
    let checked := idx.check_write_values chans
    let matches_live := checked.1
    let meta : Option MetaData :=
      if matches_live then Option.none
      else some
        { objects := checked.2.map (fun pr =>
            { path := pr.1, properties := [], raw_data_index := pr.2 }) }
    let toc : ToC :=
      { defaultToC with
        contains_new_object_list := !matches_live
        data_is_interleaved := decide (layout = DataLayout.interleaved) }
    some (write_segment toc meta (some raw_data))

/-! ## Concrete inputs for witnesses and counterexamples -/

/-- A double-float channel format with 1000 values (as in the source's
tests). -/
def sampleMeta : RawDataMeta :=
  { data_type := .doubleFloat, number_of_values := 1000, total_size_bytes := Option.none }

/-- The ToC `0xE` of the source's tests: metadata, raw data and a new
object list. -/
def tocE : ToC :=
  { contains_meta_data := true
    contains_raw_data := true
    contains_daqmx_raw_data := false
    data_is_interleaved := false
    big_endian := false
    contains_new_object_list := true }

/-- The first test segment of `src/index.rs`: a property-only group
object and two double-float channels. -/
def sampleSegment1 : SegmentMetaData :=
  { toc := tocE
    next_segment_offset := 500
    raw_data_offset := 20
    objects :=
      [ { path := "group"
          properties := [("Prop", .i32 (-51))]
          raw_data_index := .none }
      , { path := "group/ch1"
          properties := [("Prop1", .i32 (-1))]
          raw_data_index := .rawData sampleMeta }
      , { path := "group/ch2"
          properties := [("Prop2", .i32 (-2))]
          raw_data_index := .rawData sampleMeta } ] }

/-- An object that uses `MatchPrevious` although its path was never
seen before. -/
def mpObj : ObjectMetaData :=
  { path := "group/ch1"
    properties := []
    raw_data_index := .matchPrevious }

/-- A segment whose single object uses `MatchPrevious` although the
object was never seen before, with raw data present. -/
def mpSegmentRaw : SegmentMetaData :=
  { toc := tocE
    next_segment_offset := 500
    raw_data_offset := 20
    objects := [mpObj] }

/-- The same `MatchPrevious`-on-a-fresh-object segment, but without
raw data. -/
def mpSegmentMeta : SegmentMetaData :=
  { mpSegmentRaw with toc := { tocE with contains_raw_data := false } }

/-- A raw-data segment whose object list carries a meta-only object
next to the fresh `MatchPrevious` object. -/
def mpSegmentRawMulti : SegmentMetaData :=
  { toc := tocE
    next_segment_offset := 500
    raw_data_offset := 20
    objects :=
      [ { path := "group"
          properties := [("Prop", .i32 (-51))]
          raw_data_index := .none }
      , mpObj ] }

/-- The registry holds no `latest_data_format` for `p`: either the
path was never seen, or its entry's format is unset. -/
def noLatestFormat (p : String) (s : FileScanner) : Prop :=
  ∀ od, alookup p s.object_registry = some od → od.latest_data_format = Option.none

instance (p : String) (s : FileScanner) : Decidable (noLatestFormat p s) :=
  match h : alookup p s.object_registry with
  | Option.none =>
    isTrue (fun od hod => by rw [h] at hod; exact Option.noConfusion hod)
  | some od0 =>
    if hh : od0.latest_data_format = Option.none then
      isTrue (fun od hod => by
        rw [h] at hod
        rw [← Option.some.inj hod]
        exact hh)
    else
      isFalse (fun hall => hh (hall od0 h))

/-- Exact (non-wrapping) running total of the segment sizes
`next_segment_offset + 28`; used to express that the running offsets
of a run do not overflow `u64`. -/
def segSum : List SegmentMetaData → Nat
  | [] => 0
  | g :: rest => g.next_segment_offset + 28 + segSum rest

/-- What C1 asserts about one successful `add_segment_to_index` call:
after the object list is processed, a segment with raw data appends
exactly one `DataBlock` with the claimed start, length and channels,
and appends one `DataLocation` per active-list position to that
object's registry entry; a segment without raw data appends no
block. -/
def C1Conclusion (s : FileScanner) (g : SegmentMetaData) (s' : FileScanner) : Prop :=
  ∃ s2,
    FileScanner.processObjects
      (if g.toc.contains_new_object_list then s.deactivate_all_objects else s)
      g.objects = .ok s2 ∧
    s2.next_segment_start = s.next_segment_start ∧
    (g.toc.contains_raw_data = false → s'.data_blocks = s.data_blocks) ∧
    (g.toc.contains_raw_data = true →
      ∃ metas, s2.get_active_raw_data_meta = some metas ∧
        metas.length = s2.active_objects.length ∧
        (∀ (j : Nat) (ao : ActiveObject), s2.active_objects[j]? = some ao →
          ∃ od f, alookup ao.path s2.object_registry = some od ∧
            od.latest_data_format = some (DataFormat.rawData f) ∧
            metas[j]? = some f) ∧
        s'.data_blocks = s.data_blocks ++
          [{ start := s.next_segment_start + 28 + g.raw_data_offset
             length := g.next_segment_offset - g.raw_data_offset
             layout := if g.toc.data_is_interleaved then .interleaved else .contigious
             channels := metas
             byte_order := if g.toc.big_endian then .big else .little }] ∧
        (∀ (j : Nat) (ao : ActiveObject), s2.active_objects[j]? = some ao →
          alookup ao.path s'.object_registry =
            (alookup ao.path s2.object_registry).map
              (fun od => od.add_data_location
                { data_block := s.data_blocks.length, channel_index := j })))

/-- A follow-up segment re-declaring `group/ch1` with a `RawData`
index and no new-object-list flag. -/
def sampleSegment2 : SegmentMetaData :=
  { toc :=
      { contains_meta_data := true
        contains_raw_data := true
        contains_daqmx_raw_data := false
        data_is_interleaved := false
        big_endian := false
        contains_new_object_list := false }
    next_segment_offset := 500
    raw_data_offset := 20
    objects :=
      [ { path := "group/ch1"
          properties := []
          raw_data_index := .rawData sampleMeta } ] }

/-- A registry entry whose `latest_data_format` has been set by a
`RawData` index. -/
def sampleObjData : ObjectData :=
  { path := "group/ch1"
    properties := []
    data_locations := []
    latest_data_format := some (.rawData sampleMeta) }

/-- A scanner state with one active, registered channel carrying a
format. -/
def sampleScanner : FileScanner :=
  { active_objects := [⟨"group/ch1"⟩]
    object_registry := [("group/ch1", sampleObjData)]
    data_blocks := []
    next_segment_start := 0 }

/-- A two-channel contiguous block whose channels carry different
record counts. -/
def sampleBlock : DataBlock :=
  { start := 48
    length := 480
    layout := .contigious
    channels :=
      [ { data_type := .doubleFloat, number_of_values := 1000, total_size_bytes := Option.none }
      , { data_type := .doubleFloat, number_of_values := 800, total_size_bytes := Option.none } ]
    byte_order := .little }

/-- A writer index whose live layout is empty. -/
def sampleWriterIndex : WriterIndex := { live := [] }

/-! ## Codec lemmas -/

theorem toLeBytes_length (w : Nat) : ∀ v, (toLeBytes w v).length = w := by
  induction w with
  | zero => intro v; rfl
  | succ w ih => intro v; simp [toLeBytes, ih]

theorem toBeBytes_length (w v : Nat) : (toBeBytes w v).length = w := by
  simp [toBeBytes, toLeBytes_length]

theorem fromLeBytes_toLeBytes (w : Nat) : ∀ v, fromLeBytes (toLeBytes w v) = v % 256 ^ w := by
  induction w with
  | zero => intro v; simp [toLeBytes, fromLeBytes, Nat.mod_one]
  | succ w ih =>
    intro v
    simp only [toLeBytes, fromLeBytes, ih]
    rw [Nat.mod_mod_of_dvd _ (dvd_refl 256), ← Nat.mod_mul_right_div_self,
      Nat.pow_succ, Nat.mul_comm (256 ^ w) 256,
      ← Nat.mod_mod_of_dvd v (dvd_mul_right 256 (256 ^ w))]
    exact Nat.mod_add_div (v % (256 * 256 ^ w)) 256

theorem fromBeBytes_toBeBytes (w v : Nat) : fromBeBytes (toBeBytes w v) = v % 256 ^ w := by
  simp [fromBeBytes, toBeBytes, fromLeBytes_toLeBytes]

theorem readExact_append (l r : List Nat) : readExact l.length (l ++ r) = some (l, r) := by
  simp [readExact, List.take_left, List.drop_left]

theorem readExact_of_length (n : Nat) (l r : List Nat) (h : l.length = n) :
    readExact n (l ++ r) = some (l, r) := by
  subst h; exact readExact_append l r

theorem numRead_le (w v : Nat) (rest : List Nat) :
    (readExact w (toLeBytes w v ++ rest)).map (fun p => (fromLeBytes p.1, p.2)) =
      some (v % 256 ^ w, rest) := by
  rw [readExact_of_length w _ rest (toLeBytes_length w v)]
  simp [fromLeBytes_toLeBytes]

theorem numRead_be (w v : Nat) (rest : List Nat) :
    (readExact w (toBeBytes w v ++ rest)).map (fun p => (fromBeBytes p.1, p.2)) =
      some (v % 256 ^ w, rest) := by
  rw [readExact_of_length w _ rest (toBeBytes_length w v)]
  simp [fromBeBytes_toBeBytes]

theorem i32ReadWrite_le (x : Nat) (rest : List Nat) :
    I32.read_le (toLeBytes 4 x ++ rest) = some (decodeI32 (x % 256 ^ 4), rest) := by
  rw [I32.read_le, readExact_of_length 4 (toLeBytes 4 x) rest (toLeBytes_length 4 x)]
  simp [fromLeBytes_toLeBytes]

theorem i32ReadWrite_be (x : Nat) (rest : List Nat) :
    I32.read_be (toBeBytes 4 x ++ rest) = some (decodeI32 (x % 256 ^ 4), rest) := by
  rw [I32.read_be, readExact_of_length 4 (toBeBytes 4 x) rest (toBeBytes_length 4 x)]
  simp [fromBeBytes_toBeBytes]

theorem decodeI32_encode (v : Int) (h1 : -(2 ^ 31) ≤ v) (h2 : v < 2 ^ 31) :
    decodeI32 (((v % 2 ^ 32)).toNat % 256 ^ 4) = v := by
  have hnn : 0 ≤ (v % 2 ^ 32) := Int.emod_nonneg v (by norm_num)
  have hlt : (v % 2 ^ 32) < 2 ^ 32 := Int.emod_lt_of_pos v (by norm_num)
  have he : (((v % 2 ^ 32)).toNat : Int) = (v % 2 ^ 32) := Int.toNat_of_nonneg hnn
  have hm : ((v % 2 ^ 32)).toNat % 256 ^ 4 = ((v % 2 ^ 32)).toNat := by
    apply Nat.mod_eq_of_lt
    have : (((v % 2 ^ 32)).toNat : Int) < ((256 ^ 4 : Nat) : Int) := by
      rw [he]; exact lt_of_lt_of_le hlt (by norm_num)
    exact_mod_cast this
  rw [hm]
  unfold decodeI32
  split
  case isTrue h =>
    have : (((v % 2 ^ 32)).toNat : Int) < 2 ^ 31 := by exact_mod_cast h
    omega
  case isFalse h =>
    have : ¬ (((v % 2 ^ 32)).toNat : Int) < 2 ^ 31 := by exact_mod_cast h
    omega

/-- C6: for every storage type among u8, i32, u32, u64, f32, f64 and
String, and every value in its representable range (floats carried as
bit patterns; strings as valid UTF-8 byte lists whose length fits in a
u32), reading back the bytes produced by writing the value yields the
value again, under both the little-endian and the big-endian codec. -/
theorem claim_C6_codec_roundtrip :
    (∀ v rest, v < 2 ^ 8 →
      U8.read_le (U8.write_le v ++ rest) = some (v, rest) ∧
      U8.read_be (U8.write_be v ++ rest) = some (v, rest)) ∧
    (∀ v rest, -(2 ^ 31) ≤ v → v < 2 ^ 31 →
      I32.read_le (I32.write_le v ++ rest) = some (v, rest) ∧
      I32.read_be (I32.write_be v ++ rest) = some (v, rest)) ∧
    (∀ v rest, v < 2 ^ 32 →
      U32.read_le (U32.write_le v ++ rest) = some (v, rest) ∧
      U32.read_be (U32.write_be v ++ rest) = some (v, rest)) ∧
    (∀ v rest, v < 2 ^ 64 →
      U64.read_le (U64.write_le v ++ rest) = some (v, rest) ∧
      U64.read_be (U64.write_be v ++ rest) = some (v, rest)) ∧
    (∀ bits rest, bits < 2 ^ 32 →
      F32.read_le (F32.write_le bits ++ rest) = some (bits, rest) ∧
      F32.read_be (F32.write_be bits ++ rest) = some (bits, rest)) ∧
    (∀ bits rest, bits < 2 ^ 64 →
      F64.read_le (F64.write_le bits ++ rest) = some (bits, rest) ∧
      F64.read_be (F64.write_be bits ++ rest) = some (bits, rest)) ∧
    (∀ s rest, utf8Valid s = true → s.length < 2 ^ 32 →
      TdmsString.read_le (TdmsString.write_le s ++ rest) = some (s, rest) ∧
      TdmsString.read_be (TdmsString.write_be s ++ rest) = some (s, rest)) := by
  refine ⟨?_, ?_, ?_, ?_, ?_, ?_, ?_⟩
  · intro v rest h
    constructor
    · rw [U8.read_le, U8.write_le, numRead_le]
      rw [Nat.mod_eq_of_lt (by norm_num at h ⊢; omega)]
    · rw [U8.read_be, U8.write_be, numRead_be]
      rw [Nat.mod_eq_of_lt (by norm_num at h ⊢; omega)]
  · intro v rest h1 h2
    constructor
    · rw [I32.write_le, i32ReadWrite_le, decodeI32_encode v h1 h2]
    · rw [I32.write_be, i32ReadWrite_be, decodeI32_encode v h1 h2]
  · intro v rest h
    constructor
    · rw [U32.read_le, U32.write_le, numRead_le]
      rw [Nat.mod_eq_of_lt (by norm_num at h ⊢; omega)]
    · rw [U32.read_be, U32.write_be, numRead_be]
      rw [Nat.mod_eq_of_lt (by norm_num at h ⊢; omega)]
  · intro v rest h
    constructor
    · rw [U64.read_le, U64.write_le, numRead_le]
      rw [Nat.mod_eq_of_lt (by norm_num at h ⊢; omega)]
    · rw [U64.read_be, U64.write_be, numRead_be]
      rw [Nat.mod_eq_of_lt (by norm_num at h ⊢; omega)]
  · intro bits rest h
    constructor
    · rw [F32.read_le, F32.write_le, numRead_le]
      rw [Nat.mod_eq_of_lt (by norm_num at h ⊢; omega)]
    · rw [F32.read_be, F32.write_be, numRead_be]
      rw [Nat.mod_eq_of_lt (by norm_num at h ⊢; omega)]
  · intro bits rest h
    constructor
    · rw [F64.read_le, F64.write_le, numRead_le]
      rw [Nat.mod_eq_of_lt (by norm_num at h ⊢; omega)]
    · rw [F64.read_be, F64.write_be, numRead_be]
      rw [Nat.mod_eq_of_lt (by norm_num at h ⊢; omega)]
  · intro s rest hval hlen
    have hm : s.length % 256 ^ 4 = s.length :=
      Nat.mod_eq_of_lt (by norm_num at hlen ⊢; omega)
    constructor
    · rw [TdmsString.read_le, TdmsString.write_le, List.append_assoc,
        readExact_of_length 4 _ _ (toLeBytes_length 4 s.length)]
      simp only [Option.some_bind', fromLeBytes_toLeBytes, hm,
        readExact_of_length s.length s rest rfl, hval, if_true]
    · rw [TdmsString.read_be, TdmsString.write_be, List.append_assoc,
        readExact_of_length 4 _ _ (toBeBytes_length 4 s.length)]
      simp only [Option.some_bind', fromBeBytes_toBeBytes, hm,
        readExact_of_length s.length s rest rfl, hval, if_true]

/-- Witness for C6 at concrete values of every storage type. -/
theorem claim_C6_codec_roundtrip_witness :
    (U8.read_le (U8.write_le 7 ++ [9]) = some (7, [9]) ∧
      U8.read_be (U8.write_be 7 ++ [9]) = some (7, [9])) ∧
    (I32.read_le (I32.write_le (-51) ++ []) = some (-51, []) ∧
      I32.read_be (I32.write_be (-51) ++ []) = some (-51, [])) ∧
    (U32.read_le (U32.write_le 70000 ++ []) = some (70000, []) ∧
      U32.read_be (U32.write_be 70000 ++ []) = some (70000, [])) ∧
    (U64.read_le (U64.write_le 5000000000 ++ []) = some (5000000000, []) ∧
      U64.read_be (U64.write_be 5000000000 ++ []) = some (5000000000, [])) ∧
    (F32.read_le (F32.write_le 1078530011 ++ []) = some (1078530011, []) ∧
      F32.read_be (F32.write_be 1078530011 ++ []) = some (1078530011, [])) ∧
    (F64.read_le (F64.write_le 4614256656552045848 ++ []) = some (4614256656552045848, []) ∧
      F64.read_be (F64.write_be 4614256656552045848 ++ []) = some (4614256656552045848, [])) ∧
    (TdmsString.read_le (TdmsString.write_le [104, 105] ++ [0]) = some ([104, 105], [0]) ∧
      TdmsString.read_be (TdmsString.write_be [104, 105] ++ [0]) = some ([104, 105], [0])) :=
  ⟨claim_C6_codec_roundtrip.1 7 [9] (by norm_num),
   claim_C6_codec_roundtrip.2.1 (-51) [] (by norm_num) (by norm_num),
   claim_C6_codec_roundtrip.2.2.1 70000 [] (by norm_num),
   claim_C6_codec_roundtrip.2.2.2.1 5000000000 [] (by norm_num),
   claim_C6_codec_roundtrip.2.2.2.2.1 1078530011 [] (by norm_num),
   claim_C6_codec_roundtrip.2.2.2.2.2.1 4614256656552045848 [] (by norm_num),
   claim_C6_codec_roundtrip.2.2.2.2.2.2 [104, 105] [0] (by decide) (by norm_num)⟩

/-- C7: for every storage value, the number of bytes emitted by
`write_le` (and equally by `write_be`) equals `size`; for a string the
size is the UTF-8 byte length plus 4 for the length word. -/
theorem claim_C7_size_law :
    (∀ v : Nat, (U8.write_le v).length = U8.size v ∧ (U8.write_be v).length = U8.size v) ∧
    (∀ v : Int, (I32.write_le v).length = I32.size v ∧ (I32.write_be v).length = I32.size v) ∧
    (∀ v : Nat, (U32.write_le v).length = U32.size v ∧ (U32.write_be v).length = U32.size v) ∧
    (∀ v : Nat, (U64.write_le v).length = U64.size v ∧ (U64.write_be v).length = U64.size v) ∧
    (∀ bits : Nat,
      (F32.write_le bits).length = F32.size bits ∧ (F32.write_be bits).length = F32.size bits) ∧
    (∀ bits : Nat,
      (F64.write_le bits).length = F64.size bits ∧ (F64.write_be bits).length = F64.size bits) ∧
    (∀ s : List Nat,
      (TdmsString.write_le s).length = TdmsString.size s ∧
      (TdmsString.write_be s).length = TdmsString.size s) := by
  refine ⟨?_, ?_, ?_, ?_, ?_, ?_, ?_⟩
  · exact fun v => ⟨toLeBytes_length 1 v, toBeBytes_length 1 v⟩
  · exact fun v => ⟨toLeBytes_length 4 _, toBeBytes_length 4 _⟩
  · exact fun v => ⟨toLeBytes_length 4 v, toBeBytes_length 4 v⟩
  · exact fun v => ⟨toLeBytes_length 8 v, toBeBytes_length 8 v⟩
  · exact fun bits => ⟨toLeBytes_length 4 bits, toBeBytes_length 4 bits⟩
  · exact fun bits => ⟨toLeBytes_length 8 bits, toBeBytes_length 8 bits⟩
  · intro s
    constructor
    · simp [TdmsString.write_le, TdmsString.size, toLeBytes_length, Nat.add_comm]
    · simp [TdmsString.write_be, TdmsString.size, toBeBytes_length, Nat.add_comm]

/-! ## Wrapping-arithmetic lemmas -/

theorem u64add_eq (a b : Nat) (h : a + b < 2 ^ 64) : u64add a b = a + b :=
  Nat.mod_eq_of_lt h

theorem u64sub_eq (a b : Nat) (hba : b ≤ a) (ha : a < 2 ^ 64) : u64sub a b = a - b := by
  unfold u64sub
  rw [Nat.mod_eq_of_lt (show b < 2 ^ 64 by omega)]
  rw [show a + (2 ^ 64 - b) = 2 ^ 64 + (a - b) by omega, Nat.add_mod_left]
  exact Nat.mod_eq_of_lt (by omega)

/-! ## Association-list lemmas -/

theorem alookup_ainsert_self (k : String) (v : α) (l : List (String × α)) :
    alookup k (ainsert k v l) = some v := by
  induction l with
  | nil => simp [ainsert, alookup]
  | cons hd tl ih =>
    by_cases h : hd.1 = k
    · simp [ainsert, alookup, h]
    · simp [ainsert, alookup, h, ih]

theorem alookup_ainsert_ne (k k' : String) (v : α) (l : List (String × α)) (h : k' ≠ k) :
    alookup k (ainsert k' v l) = alookup k l := by
  induction l with
  | nil => simp [ainsert, alookup, h]
  | cons hd tl ih =>
    by_cases h1 : hd.1 = k'
    · simp [ainsert, alookup, h1, h]
    · by_cases h2 : hd.1 = k
      · simp [ainsert, alookup, h1, h2, Ne.symm h]
      · simp [ainsert, alookup, h1, h2, ih]

theorem alookup_aupdate_self (k : String) (f : α → α) (l : List (String × α)) :
    alookup k (aupdate k f l) = (alookup k l).map f := by
  induction l with
  | nil => simp [aupdate, alookup]
  | cons hd tl ih =>
    by_cases h : hd.1 = k
    · simp [aupdate, alookup, h]
    · simp [aupdate, alookup, h, ih]

theorem alookup_aupdate_ne (k k' : String) (f : α → α) (l : List (String × α)) (h : k' ≠ k) :
    alookup k (aupdate k' f l) = alookup k l := by
  induction l with
  | nil => simp [aupdate, alookup]
  | cons hd tl ih =>
    by_cases h1 : hd.1 = k'
    · simp [aupdate, alookup, h1, h]
    · by_cases h2 : hd.1 = k
      · simp [aupdate, alookup, h1, h2, Ne.symm h]
      · simp [aupdate, alookup, h1, h2, ih]

theorem alookup_aupdate_isSome (k p : String) (f : α → α) (l : List (String × α)) :
    (alookup p (aupdate k f l)).isSome = (alookup p l).isSome := by
  by_cases h : k = p
  · subst h; rw [alookup_aupdate_self]; cases alookup k l <;> rfl
  · rw [alookup_aupdate_ne p k f l h]

/-! ## ObjectData lemmas -/

theorem ObjectData.update_latest (od : ObjectData) (other : ObjectMetaData) :
    (od.update other).latest_data_format =
      match DataFormat.from_index other.raw_data_index with
      | some format => some format
      | Option.none => od.latest_data_format := rfl

theorem ObjectData.update_locations (od : ObjectData) (other : ObjectMetaData) :
    (od.update other).data_locations = od.data_locations := rfl

theorem ObjectData.from_metadata_latest (meta : ObjectMetaData) :
    (ObjectData.from_metadata meta).latest_data_format =
      DataFormat.from_index meta.raw_data_index := by
  rw [ObjectData.from_metadata, ObjectData.update_latest]
  cases DataFormat.from_index meta.raw_data_index <;> rfl

theorem ObjectData.from_metadata_locations (meta : ObjectMetaData) :
    (ObjectData.from_metadata meta).data_locations = [] := rfl

/-! ## omap lemmas -/

theorem omap_length (f : α → Option β) :
    ∀ (l : List α) (ys : List β), omap f l = some ys → ys.length = l.length := by
  intro l
  induction l with
  | nil => intro ys h; simp [omap] at h; simp [← h]
  | cons a tl ih =>
    intro ys h
    simp only [omap] at h
    cases hf : f a with
    | none => rw [hf] at h; exact absurd h (by simp)
    | some b =>
      rw [hf] at h
      cases ht : omap f tl with
      | none => rw [ht] at h; exact absurd h (by simp)
      | some bs =>
        rw [ht] at h
        have hys : ys = b :: bs := by
          have := h; simp at this; exact this.symm
        subst hys
        simp [ih bs ht]

theorem omap_get? (f : α → Option β) :
    ∀ (l : List α) (ys : List β), omap f l = some ys →
      ∀ (j : Nat) (a : α), l[j]? = some a → ∃ b, f a = some b ∧ ys[j]? = some b := by
  intro l
  induction l with
  | nil => intro ys h j a ha; simp at ha
  | cons hd tl ih =>
    intro ys h j a ha
    simp only [omap] at h
    cases hf : f hd with
    | none => rw [hf] at h; exact absurd h (by simp)
    | some b =>
      rw [hf] at h
      cases ht : omap f tl with
      | none => rw [ht] at h; exact absurd h (by simp)
      | some bs =>
        rw [ht] at h
        have hys : ys = b :: bs := by
          have := h; simp at this; exact this.symm
        subst hys
        cases j with
        | zero =>
          simp at ha
          subst ha
          exact ⟨b, hf, by simp⟩
        | succ j =>
          simp at ha
          obtain ⟨c, hc, hcy⟩ := ih bs ht j a ha
          exact ⟨c, hc, by simpa using hcy⟩

/-! ## Scanner step lemmas -/

theorem update_meta_object_lookup (s : FileScanner) (obj : ObjectMetaData) (p : String) :
    alookup p (s.update_meta_object obj).object_registry =
      if obj.path = p then
        match alookup p s.object_registry with
        | some od => some (od.update obj)
        | Option.none => some (ObjectData.from_metadata obj)
      else alookup p s.object_registry := by
  unfold FileScanner.update_meta_object
  cases hl : alookup obj.path s.object_registry with
  | none =>
    by_cases hp : obj.path = p
    · subst hp; simp [alookup_ainsert_self, hl]
    · simp [alookup_ainsert_ne p obj.path _ _ hp, hp]
  | some od0 =>
    by_cases hp : obj.path = p
    · subst hp; simp [alookup_aupdate_self, hl]
    · simp [alookup_aupdate_ne p obj.path _ _ hp, hp]

theorem update_meta_object_frame (s : FileScanner) (obj : ObjectMetaData) :
    (s.update_meta_object obj).data_blocks = s.data_blocks ∧
    (s.update_meta_object obj).next_segment_start = s.next_segment_start ∧
    (s.update_meta_object obj).active_objects = s.active_objects := by
  unfold FileScanner.update_meta_object
  cases alookup obj.path s.object_registry <;> simp

theorem update_or_activate_ok (s : FileScanner) (obj : ObjectMetaData) (s' : FileScanner)
    (h : s.update_or_activate_data_object obj = .ok s') :
    (∀ p, alookup p s'.object_registry =
      if obj.path = p then
        match alookup p s.object_registry with
        | some od => some (od.update obj)
        | Option.none => some (ObjectData.from_metadata obj)
      else alookup p s.object_registry) ∧
    s'.data_blocks = s.data_blocks ∧
    s'.next_segment_start = s.next_segment_start ∧
    (s'.active_objects = s.active_objects ∨
      (s'.active_objects = s.active_objects ++ [⟨obj.path⟩] ∧
        (s.active_objects.any (fun ao => ao.path == obj.path)) = false)) := by
  unfold FileScanner.update_or_activate_data_object at h
  by_cases hany : (s.active_objects.any (fun ao => ao.path == obj.path)) = true
  · rw [if_pos hany] at h
    cases hl : alookup obj.path s.object_registry with
    | none => rw [hl] at h; exact absurd h (by simp)
    | some od0 =>
      rw [hl] at h
      simp only [ScanStep.ok.injEq] at h
      subst h
      refine ⟨?_, rfl, rfl, Or.inl rfl⟩
      intro p
      by_cases hp : obj.path = p
      · subst hp; simp [alookup_aupdate_self, hl]
      · simp [alookup_aupdate_ne p obj.path _ _ hp, hp]
  · rw [if_neg hany] at h
    simp only [ScanStep.ok.injEq] at h
    subst h
    have hf := update_meta_object_frame
      { s with active_objects := s.active_objects ++ [⟨obj.path⟩] } obj
    refine ⟨?_, hf.1, hf.2.1, Or.inr ⟨hf.2.2, by simpa using hany⟩⟩
    intro p
    rw [update_meta_object_lookup]

theorem update_or_activate_panicked (s : FileScanner) (obj : ObjectMetaData) (sp : FileScanner)
    (h : s.update_or_activate_data_object obj = .panicked sp) :
    sp = s ∧ alookup obj.path s.object_registry = Option.none := by
  unfold FileScanner.update_or_activate_data_object at h
  by_cases hany : (s.active_objects.any (fun ao => ao.path == obj.path)) = true
  · rw [if_pos hany] at h
    cases hl : alookup obj.path s.object_registry with
    | none =>
      rw [hl] at h
      simp only [ScanStep.panicked.injEq] at h
      exact ⟨h.symm, rfl⟩
    | some od0 => rw [hl] at h; exact absurd h (by simp)
  · rw [if_neg hany] at h
    exact absurd h (by simp)

theorem processObject_ok (s : FileScanner) (obj : ObjectMetaData) (s' : FileScanner)
    (h : FileScanner.processObject s obj = .ok s') :
    (∀ p, alookup p s'.object_registry =
      if obj.path = p then
        match alookup p s.object_registry with
        | some od => some (od.update obj)
        | Option.none => some (ObjectData.from_metadata obj)
      else alookup p s.object_registry) ∧
    s'.data_blocks = s.data_blocks ∧
    s'.next_segment_start = s.next_segment_start ∧
    (s'.active_objects = s.active_objects ∨
      (s'.active_objects = s.active_objects ++ [⟨obj.path⟩] ∧
        (s.active_objects.any (fun ao => ao.path == obj.path)) = false)) := by
  unfold FileScanner.processObject at h
  cases hidx : obj.raw_data_index with
  | none =>
    rw [hidx] at h
    simp only [ScanStep.ok.injEq] at h
    subst h
    have hf := update_meta_object_frame s obj
    exact ⟨fun p => update_meta_object_lookup s obj p, hf.1, hf.2.1, Or.inl hf.2.2⟩
  | matchPrevious => rw [hidx] at h; exact update_or_activate_ok s obj s' h
  | rawData m => rw [hidx] at h; exact update_or_activate_ok s obj s' h
  | daqmx => rw [hidx] at h; exact update_or_activate_ok s obj s' h

theorem processObject_panicked (s : FileScanner) (obj : ObjectMetaData) (sp : FileScanner)
    (h : FileScanner.processObject s obj = .panicked sp) : sp = s := by
  unfold FileScanner.processObject at h
  cases hidx : obj.raw_data_index with
  | none => rw [hidx] at h; exact absurd h (by simp)
  | matchPrevious => rw [hidx] at h; exact (update_or_activate_panicked s obj sp h).1
  | rawData m => rw [hidx] at h; exact (update_or_activate_panicked s obj sp h).1
  | daqmx => rw [hidx] at h; exact (update_or_activate_panicked s obj sp h).1

theorem processObject_registered (s : FileScanner) (obj : ObjectMetaData) (s' : FileScanner)
    (h : FileScanner.processObject s obj = .ok s') (hreg : activeRegistered s) :
    activeRegistered s' := by
  obtain ⟨hlook, _, _, hact⟩ := processObject_ok s obj s' h
  intro ao hao
  have hmem : ao ∈ s.active_objects ∨ ao = ⟨obj.path⟩ := by
    rcases hact with hsame | ⟨happ, _⟩
    · rw [hsame] at hao; exact Or.inl hao
    · rw [happ] at hao
      rcases List.mem_append.mp hao with h1 | h2
      · exact Or.inl h1
      · simp at h2; exact Or.inr h2
  rw [hlook ao.path]
  by_cases hp : obj.path = ao.path
  · rw [if_pos hp]
    cases alookup ao.path s.object_registry <;> simp
  · rw [if_neg hp]
    rcases hmem with h1 | h2
    · exact hreg ao h1
    · exact absurd (by rw [h2] : ao.path = obj.path).symm hp

theorem processObject_no_panic (s : FileScanner) (obj : ObjectMetaData)
    (hreg : activeRegistered s) :
    ∃ s', FileScanner.processObject s obj = .ok s' := by
  unfold FileScanner.processObject
  cases hidx : obj.raw_data_index with
  | none => exact ⟨_, rfl⟩
  | matchPrevious =>
    unfold FileScanner.update_or_activate_data_object
    by_cases hany : (s.active_objects.any (fun ao => ao.path == obj.path)) = true
    · rw [if_pos hany]
      obtain ⟨ao, hao, hpath⟩ := List.any_eq_true.mp hany
      have : ao.path = obj.path := by simpa using hpath
      have hs := hreg ao hao
      rw [this] at hs
      cases hl : alookup obj.path s.object_registry with
      | none => rw [hl] at hs; simp at hs
      | some od => exact ⟨_, rfl⟩
    · rw [if_neg hany]; exact ⟨_, rfl⟩
  | rawData m =>
    unfold FileScanner.update_or_activate_data_object
    by_cases hany : (s.active_objects.any (fun ao => ao.path == obj.path)) = true
    · rw [if_pos hany]
      obtain ⟨ao, hao, hpath⟩ := List.any_eq_true.mp hany
      have : ao.path = obj.path := by simpa using hpath
      have hs := hreg ao hao
      rw [this] at hs
      cases hl : alookup obj.path s.object_registry with
      | none => rw [hl] at hs; simp at hs
      | some od => exact ⟨_, rfl⟩
    · rw [if_neg hany]; exact ⟨_, rfl⟩
  | daqmx =>
    unfold FileScanner.update_or_activate_data_object
    by_cases hany : (s.active_objects.any (fun ao => ao.path == obj.path)) = true
    · rw [if_pos hany]
      obtain ⟨ao, hao, hpath⟩ := List.any_eq_true.mp hany
      have : ao.path = obj.path := by simpa using hpath
      have hs := hreg ao hao
      rw [this] at hs
      cases hl : alookup obj.path s.object_registry with
      | none => rw [hl] at hs; simp at hs
      | some od => exact ⟨_, rfl⟩
    · rw [if_neg hany]; exact ⟨_, rfl⟩

theorem processObject_nodup (s : FileScanner) (obj : ObjectMetaData) (s' : FileScanner)
    (h : FileScanner.processObject s obj = .ok s') (hnd : activePathsNodup s) :
    activePathsNodup s' := by
  obtain ⟨_, _, _, hact⟩ := processObject_ok s obj s' h
  rcases hact with hsame | ⟨happ, hany⟩
  · unfold activePathsNodup at hnd ⊢; rw [hsame]; exact hnd
  · unfold activePathsNodup at hnd ⊢
    rw [happ, List.map_append]
    rw [List.nodup_append]
    refine ⟨hnd, by simp, ?_⟩
    intro p hp hq
    have hq2 : p = obj.path := by simpa using hq
    obtain ⟨ao, hao, hq'⟩ := List.mem_map.mp hp
    have hall : ∀ x ∈ s.active_objects, ¬ x.path = obj.path := by simpa using hany
    exact hall ao hao (hq'.trans hq2)

theorem processObjects_ok_frame :
    ∀ (objs : List ObjectMetaData) (s s2 : FileScanner),
      FileScanner.processObjects s objs = .ok s2 →
      s2.data_blocks = s.data_blocks ∧ s2.next_segment_start = s.next_segment_start := by
  intro objs
  induction objs with
  | nil =>
    intro s s2 h
    simp only [FileScanner.processObjects, ScanStep.ok.injEq] at h
    subst h; exact ⟨rfl, rfl⟩
  | cons obj rest ih =>
    intro s s2 h
    simp only [FileScanner.processObjects] at h
    cases hstep : FileScanner.processObject s obj with
    | ok smid =>
      rw [hstep] at h
      obtain ⟨_, hb, hn, _⟩ := processObject_ok s obj smid hstep
      obtain ⟨hb2, hn2⟩ := ih smid s2 h
      exact ⟨hb2.trans hb, hn2.trans hn⟩
    | panicked sp => rw [hstep] at h; exact absurd h (by simp)

theorem processObjects_no_panic :
    ∀ (objs : List ObjectMetaData) (s : FileScanner), activeRegistered s →
      ∃ s2, FileScanner.processObjects s objs = .ok s2 ∧ activeRegistered s2 := by
  intro objs
  induction objs with
  | nil => intro s hreg; exact ⟨s, rfl, hreg⟩
  | cons obj rest ih =>
    intro s hreg
    obtain ⟨smid, hmid⟩ := processObject_no_panic s obj hreg
    have hregmid := processObject_registered s obj smid hmid hreg
    obtain ⟨s2, h2, hreg2⟩ := ih smid hregmid
    refine ⟨s2, ?_, hreg2⟩
    simp only [FileScanner.processObjects, hmid]
    exact h2

theorem processObjects_nodup :
    ∀ (objs : List ObjectMetaData) (s s2 : FileScanner),
      FileScanner.processObjects s objs = .ok s2 → activePathsNodup s →
      activePathsNodup s2 := by
  intro objs
  induction objs with
  | nil =>
    intro s s2 h hnd
    simp only [FileScanner.processObjects, ScanStep.ok.injEq] at h
    subst h; exact hnd
  | cons obj rest ih =>
    intro s s2 h hnd
    simp only [FileScanner.processObjects] at h
    cases hstep : FileScanner.processObject s obj with
    | ok smid =>
      rw [hstep] at h
      exact ih smid s2 h (processObject_nodup s obj smid hstep hnd)
    | panicked sp => rw [hstep] at h; exact absurd h (by simp)

theorem processObject_latest (s : FileScanner) (obj : ObjectMetaData) (s' : FileScanner)
    (p : String) (od : ObjectData) (f : DataFormat)
    (h : FileScanner.processObject s obj = .ok s')
    (hlk : alookup p s.object_registry = some od)
    (hf : od.latest_data_format = some f) :
    ∃ od', alookup p s'.object_registry = some od' ∧
      ∃ f', od'.latest_data_format = some f' ∧
        (f' = f ∨ (obj.path = p ∧ ∃ m, obj.raw_data_index = .rawData m ∧ f' = .rawData m)) := by
  obtain ⟨hlook, _, _, _⟩ := processObject_ok s obj s' h
  rw [hlook p]
  by_cases hp : obj.path = p
  · rw [if_pos hp, hlk]
    refine ⟨od.update obj, rfl, ?_⟩
    rw [ObjectData.update_latest]
    cases hidx : obj.raw_data_index with
    | rawData m =>
      exact ⟨.rawData m, by simp [DataFormat.from_index], Or.inr ⟨hp, m, rfl, rfl⟩⟩
    | none => exact ⟨f, by simp [DataFormat.from_index, hf], Or.inl rfl⟩
    | matchPrevious => exact ⟨f, by simp [DataFormat.from_index, hf], Or.inl rfl⟩
    | daqmx => exact ⟨f, by simp [DataFormat.from_index, hf], Or.inl rfl⟩
  · rw [if_neg hp, hlk]
    exact ⟨od, rfl, f, hf, Or.inl rfl⟩

theorem processObjects_latest :
    ∀ (objs : List ObjectMetaData) (s s2 : FileScanner) (p : String)
      (od : ObjectData) (f : DataFormat),
      FileScanner.processObjects s objs = .ok s2 →
      alookup p s.object_registry = some od →
      od.latest_data_format = some f →
      ∃ od', alookup p s2.object_registry = some od' ∧
        ∃ f', od'.latest_data_format = some f' ∧
          (f' = f ∨ ∃ obj ∈ objs, obj.path = p ∧
            ∃ m, obj.raw_data_index = .rawData m ∧ f' = .rawData m) := by
  intro objs
  induction objs with
  | nil =>
    intro s s2 p od f h hlk hf
    simp only [FileScanner.processObjects, ScanStep.ok.injEq] at h
    subst h
    exact ⟨od, hlk, f, hf, Or.inl rfl⟩
  | cons obj rest ih =>
    intro s s2 p od f h hlk hf
    simp only [FileScanner.processObjects] at h
    cases hstep : FileScanner.processObject s obj with
    | panicked sp => rw [hstep] at h; exact absurd h (by simp)
    | ok smid =>
      rw [hstep] at h
      obtain ⟨od1, hlk1, f1, hf1, hsrc1⟩ :=
        processObject_latest s obj smid p od f hstep hlk hf
      obtain ⟨od2, hlk2, f2, hf2, hsrc2⟩ := ih smid s2 p od1 f1 h hlk1 hf1
      refine ⟨od2, hlk2, f2, hf2, ?_⟩
      rcases hsrc2 with h2 | ⟨o, ho, hop, m, hom, hfm⟩
      · subst h2
        rcases hsrc1 with h1 | ⟨hop, m, hom, hfm⟩
        · exact Or.inl h1
        · exact Or.inr ⟨obj, by simp, hop, m, hom, hfm⟩
      · exact Or.inr ⟨o, by simp [ho], hop, m, hom, hfm⟩

/-! ## Data-block insertion lemmas -/

theorem locLoop_frame :
    ∀ (l : List ActiveObject) (s : FileScanner) (idx i : Nat) (r : FileScanner),
      FileScanner.locLoop s idx i l = .ok r →
      r.data_blocks = s.data_blocks ∧ r.next_segment_start = s.next_segment_start ∧
        r.active_objects = s.active_objects := by
  intro l
  induction l with
  | nil =>
    intro s idx i r h
    simp only [FileScanner.locLoop, ScanStep.ok.injEq] at h
    subst h; exact ⟨rfl, rfl, rfl⟩
  | cons ao rest ih =>
    intro s idx i r h
    simp only [FileScanner.locLoop] at h
    cases hl : alookup ao.path s.object_registry with
    | none => rw [hl] at h; exact absurd h (by simp)
    | some od =>
      rw [hl] at h
      obtain ⟨hb, hn, ha⟩ := ih _ idx (i + 1) r h
      exact ⟨hb, hn, ha⟩

theorem locLoop_no_panic :
    ∀ (l : List ActiveObject) (s : FileScanner) (idx i : Nat),
      (∀ ao ∈ l, (alookup ao.path s.object_registry).isSome) →
      ∃ r, FileScanner.locLoop s idx i l = .ok r := by
  intro l
  induction l with
  | nil => intro s idx i _; exact ⟨s, rfl⟩
  | cons ao rest ih =>
    intro s idx i hreg
    have hs := hreg ao (by simp)
    cases hl : alookup ao.path s.object_registry with
    | none => rw [hl] at hs; simp at hs
    | some od =>
      have hrest : ∀ ao' ∈ rest,
          (alookup ao'.path (aupdate ao.path
            (fun od => od.add_data_location
              { data_block := idx, channel_index := i }) s.object_registry)).isSome := by
        intro ao' hao'
        rw [alookup_aupdate_isSome]
        exact hreg ao' (by simp [hao'])
      let supd : FileScanner := { s with object_registry := aupdate ao.path (fun od => od.add_data_location { data_block := idx, channel_index := i }) s.object_registry }
      obtain ⟨r, hr⟩ := ih supd idx (i + 1) hrest
      refine ⟨r, ?_⟩
      simp only [FileScanner.locLoop, hl]
      exact hr

theorem locLoop_lookup :
    ∀ (l : List ActiveObject) (s : FileScanner) (idx i : Nat) (r : FileScanner),
      FileScanner.locLoop s idx i l = .ok r →
      (l.map ActiveObject.path).Nodup →
      ((∀ (j : Nat) (ao : ActiveObject), l[j]? = some ao →
        alookup ao.path r.object_registry =
          (alookup ao.path s.object_registry).map
            (fun od => od.add_data_location
              { data_block := idx, channel_index := i + j })) ∧
      (∀ p, p ∉ l.map ActiveObject.path →
        alookup p r.object_registry = alookup p s.object_registry)) := by
  intro l
  induction l with
  | nil =>
    intro s idx i r h _
    simp only [FileScanner.locLoop, ScanStep.ok.injEq] at h
    subst h
    exact ⟨fun j ao hj => by simp at hj, fun p _ => rfl⟩
  | cons ao rest ih =>
    intro s idx i r h hnd
    simp only [FileScanner.locLoop] at h
    cases hl : alookup ao.path s.object_registry with
    | none => rw [hl] at h; exact absurd h (by simp)
    | some od =>
      rw [hl] at h
      have hndr : (rest.map ActiveObject.path).Nodup := by
        simp only [List.map_cons, List.nodup_cons] at hnd
        exact hnd.2
      have hnin : ao.path ∉ rest.map ActiveObject.path := by
        simp only [List.map_cons, List.nodup_cons] at hnd
        exact hnd.1
      obtain ⟨ih1, ih2⟩ := ih _ idx (i + 1) r h hndr
      constructor
      · intro j ao' hj
        cases j with
        | zero =>
          have hao' : ao = ao' := by simpa using hj
          subst hao'
          rw [ih2 ao.path hnin, alookup_aupdate_self, hl]
          simp
        | succ j =>
          have hj' : rest[j]? = some ao' := by simpa using hj
          rw [ih1 j ao' hj']
          have hne : ao.path ≠ ao'.path := by
            intro hcontra
            exact hnin (hcontra ▸ List.mem_map.mpr ⟨ao', List.getElem?_mem hj', rfl⟩)
          rw [alookup_aupdate_ne ao'.path ao.path _ _ hne]
          have : i + (j + 1) = i + 1 + j := by omega
          rw [this]
      · intro p hp
        have hpne : ao.path ≠ p := by
          intro hcontra
          exact hp (hcontra ▸ (by simp))
        have hpr : p ∉ rest.map ActiveObject.path := by
          intro hcontra
          exact hp (by simp [hcontra])
        rw [ih2 p hpr, alookup_aupdate_ne p ao.path _ _ hpne]

theorem insert_data_block_ok (s : FileScanner) (block : DataBlock) (r : FileScanner)
    (h : s.insert_data_block block = .ok r) (hnd : activePathsNodup s) :
    r.data_blocks = s.data_blocks ++ [block] ∧
    r.next_segment_start = s.next_segment_start ∧
    r.active_objects = s.active_objects ∧
    (∀ (j : Nat) (ao : ActiveObject), s.active_objects[j]? = some ao →
      alookup ao.path r.object_registry =
        (alookup ao.path s.object_registry).map
          (fun od => od.add_data_location
            { data_block := s.data_blocks.length, channel_index := j })) ∧
    (∀ p, p ∉ s.active_objects.map ActiveObject.path →
      alookup p r.object_registry = alookup p s.object_registry) := by
  unfold FileScanner.insert_data_block at h
  obtain ⟨hb, hn, ha⟩ := locLoop_frame s.active_objects _ _ _ r h
  obtain ⟨h1, h2⟩ := locLoop_lookup s.active_objects _ _ _ r h hnd
  refine ⟨hb, hn, ha, ?_, h2⟩
  intro j ao hj
  have := h1 j ao hj
  simpa using this

theorem insert_data_block_no_panic (s : FileScanner) (block : DataBlock)
    (hreg : activeRegistered s) :
    ∃ r, s.insert_data_block block = .ok r := by
  unfold FileScanner.insert_data_block
  exact locLoop_no_panic s.active_objects _ _ _ (fun ao hao => hreg ao hao)

/-! ## add_segment structural lemmas -/

theorem omap_eq_none (f : α → Option β) :
    ∀ (l : List α) (a : α), a ∈ l → f a = Option.none → omap f l = Option.none := by
  intro l
  induction l with
  | nil => intro a ha _; simp at ha
  | cons hd tl ih =>
    intro a ha hfa
    rcases List.mem_cons.mp ha with h1 | h2
    · subst h1; simp [omap, hfa]
    · simp only [omap]
      cases f hd with
      | none => rfl
      | some b => rw [ih a h2 hfa]

theorem add_segment_to_index_of_run_ok (s : FileScanner) (g : SegmentMetaData)
    (s1 : FileScanner) (h : s.add_segment_run g = .ok s1) :
    s.add_segment_to_index g = some s1 := by
  unfold FileScanner.add_segment_to_index
  rw [h]

theorem rawDataStep_none (s2 : FileScanner) (g : SegmentMetaData)
    (hm : s2.get_active_raw_data_meta = Option.none) :
    s2.rawDataStep g = .panicked s2 := by
  unfold FileScanner.rawDataStep
  rw [hm]

theorem rawDataStep_some (s2 : FileScanner) (g : SegmentMetaData) (metas : List RawDataMeta)
    (hm : s2.get_active_raw_data_meta = some metas) :
    s2.rawDataStep g =
      s2.insert_data_block (DataBlock.from_segment g s2.next_segment_start metas) := by
  unfold FileScanner.rawDataStep
  rw [hm]

theorem add_segment_to_index_run_ok (s : FileScanner) (g : SegmentMetaData) (s' : FileScanner)
    (h : s.add_segment_to_index g = some s') : s.add_segment_run g = .ok s' := by
  unfold FileScanner.add_segment_to_index at h
  cases hr : s.add_segment_run g with
  | ok s1 =>
    rw [hr] at h
    have h2 : some s1 = some s' := h
    exact congrArg ScanStep.ok (Option.some.inj h2)
  | panicked sp =>
    rw [hr] at h
    exact absurd (show (Option.none : Option FileScanner) = some s' from h) (by simp)

theorem add_segment_run_ok_cases (s : FileScanner) (g : SegmentMetaData) (s' : FileScanner)
    (hrun : s.add_segment_run g = .ok s') :
    ∃ s2,
      FileScanner.processObjects
        (if g.toc.contains_new_object_list then s.deactivate_all_objects else s)
        g.objects = .ok s2 ∧
      ((g.toc.contains_raw_data = false ∧
          s' = { s2 with
            next_segment_start := u64add s2.next_segment_start g.total_size_bytes }) ∨
        (g.toc.contains_raw_data = true ∧ ∃ metas s3,
          s2.get_active_raw_data_meta = some metas ∧
          s2.insert_data_block
            (DataBlock.from_segment g s2.next_segment_start metas) = .ok s3 ∧
          s' = { s3 with
            next_segment_start := u64add s3.next_segment_start g.total_size_bytes })) := by
  unfold FileScanner.add_segment_run at hrun
  cases hpo : FileScanner.processObjects
      (if g.toc.contains_new_object_list then s.deactivate_all_objects else s)
      g.objects with
  | panicked sp =>
    rw [hpo] at hrun
    simp only [ScanStep.andThen] at hrun
    exact ScanStep.noConfusion hrun
  | ok s2 =>
    rw [hpo] at hrun
    simp only [ScanStep.andThen] at hrun
    refine ⟨s2, rfl, ?_⟩
    by_cases hraw : g.toc.contains_raw_data = true
    · rw [hraw, if_pos rfl] at hrun
      cases hm : s2.get_active_raw_data_meta with
      | none =>
        rw [rawDataStep_none s2 g hm] at hrun
        simp only [ScanStep.andThen] at hrun
        exact ScanStep.noConfusion hrun
      | some metas =>
        rw [rawDataStep_some s2 g metas hm] at hrun
        cases hins : s2.insert_data_block
            (DataBlock.from_segment g s2.next_segment_start metas) with
        | panicked sp =>
          rw [hins] at hrun
          simp only [ScanStep.andThen] at hrun
          exact ScanStep.noConfusion hrun
        | ok s3 =>
          rw [hins] at hrun
          simp only [ScanStep.andThen, ScanStep.ok.injEq] at hrun
          exact Or.inr ⟨hraw, metas, s3, rfl, hins, hrun.symm⟩
    · have hraw' : g.toc.contains_raw_data = false := by
        revert hraw; cases g.toc.contains_raw_data <;> simp
      rw [hraw', if_neg (by decide)] at hrun
      simp only [ScanStep.andThen, ScanStep.ok.injEq] at hrun
      exact Or.inl ⟨hraw', hrun.symm⟩

theorem add_segment_ok_cases (s : FileScanner) (g : SegmentMetaData) (s' : FileScanner)
    (hok : s.add_segment_to_index g = some s') :
    ∃ s2,
      FileScanner.processObjects
        (if g.toc.contains_new_object_list then s.deactivate_all_objects else s)
        g.objects = .ok s2 ∧
      ((g.toc.contains_raw_data = false ∧
          s' = { s2 with
            next_segment_start := u64add s2.next_segment_start g.total_size_bytes }) ∨
        (g.toc.contains_raw_data = true ∧ ∃ metas s3,
          s2.get_active_raw_data_meta = some metas ∧
          s2.insert_data_block
            (DataBlock.from_segment g s2.next_segment_start metas) = .ok s3 ∧
          s' = { s3 with
            next_segment_start := u64add s3.next_segment_start g.total_size_bytes })) :=
  add_segment_run_ok_cases s g s' (add_segment_to_index_run_ok s g s' hok)

theorem add_segment_panicked_cases (s : FileScanner) (g : SegmentMetaData) (sp : FileScanner)
    (hreg : activeRegistered s)
    (h : s.add_segment_run g = .panicked sp) :
    g.toc.contains_raw_data = true ∧
    FileScanner.processObjects
      (if g.toc.contains_new_object_list then s.deactivate_all_objects else s)
      g.objects = .ok sp ∧
    sp.get_active_raw_data_meta = Option.none := by
  have hreg1 : activeRegistered
      (if g.toc.contains_new_object_list then s.deactivate_all_objects else s) := by
    cases hb : g.toc.contains_new_object_list with
    | true =>
      rw [if_pos rfl]
      intro ao hao
      simp [FileScanner.deactivate_all_objects] at hao
    | false =>
      rw [if_neg (by simp)]
      exact hreg
  obtain ⟨s2, hpo, hreg2⟩ := processObjects_no_panic g.objects _ hreg1
  unfold FileScanner.add_segment_run at h
  rw [hpo] at h
  simp only [ScanStep.andThen] at h
  by_cases hraw : g.toc.contains_raw_data = true
  · rw [hraw, if_pos rfl] at h
    cases hm : s2.get_active_raw_data_meta with
    | some metas =>
      rw [rawDataStep_some s2 g metas hm] at h
      obtain ⟨r, hr⟩ := insert_data_block_no_panic s2
        (DataBlock.from_segment g s2.next_segment_start metas) hreg2
      rw [hr] at h
      simp only [ScanStep.andThen] at h
      exact ScanStep.noConfusion h
    | none =>
      rw [rawDataStep_none s2 g hm] at h
      simp only [ScanStep.andThen, ScanStep.panicked.injEq] at h
      subst h
      exact ⟨hraw, hpo, hm⟩
  · have hraw' : g.toc.contains_raw_data = false := by
      revert hraw; cases g.toc.contains_raw_data <;> simp
    rw [hraw', if_neg (by decide)] at h
    simp only [ScanStep.andThen] at h
    exact ScanStep.noConfusion h

/-! ## Claim C1 -/

/-- C1: for every segment submitted to the `FileScanner` whose ToC has
`contains_raw_data` set, `add_segment` appends exactly one `DataBlock`
with `start = next_segment_start + 28 + raw_data_offset`,
`length = next_segment_offset - raw_data_offset`, and channels equal
to the active objects' `latest_data_format` values in active-list
order, and then, for each position `i` in the active list, appends
`DataLocation{block_index, channel_index = i}` to that object's
data_locations; when `contains_raw_data` is clear, no `DataBlock` is
appended.  (Stated for scanner states whose active list is duplicate
free and fully registered — every state reachable from
`FileScanner::new` — and under the claim's no-overflow side
conditions.) -/
theorem claim_C1_data_block_and_locations
    (s : FileScanner) (g : SegmentMetaData) (s' : FileScanner)
    (hnd : activePathsNodup s)
    (hok : s.add_segment_to_index g = some s')
    (hr : g.raw_data_offset ≤ g.next_segment_offset)
    (hn : g.next_segment_offset < 2 ^ 64)
    (hov : s.next_segment_start + 28 + g.raw_data_offset < 2 ^ 64) :
    C1Conclusion s g s' := by
  obtain ⟨s2, hpo, hcases⟩ := add_segment_ok_cases s g s' hok
  have hfr := processObjects_ok_frame g.objects _ s2 hpo
  have hs1b : (if g.toc.contains_new_object_list then s.deactivate_all_objects
      else s).data_blocks = s.data_blocks := by
    split <;> rfl
  have hs1s : (if g.toc.contains_new_object_list then s.deactivate_all_objects
      else s).next_segment_start = s.next_segment_start := by
    split <;> rfl
  have hB2 : s2.data_blocks = s.data_blocks := hfr.1.trans hs1b
  have hS2 : s2.next_segment_start = s.next_segment_start := hfr.2.trans hs1s
  refine ⟨s2, hpo, hS2, ?_, ?_⟩
  · intro hrawf
    rcases hcases with ⟨_, hs'⟩ | ⟨hrawt, _⟩
    · rw [hs']; exact hB2
    · rw [hrawf] at hrawt; exact absurd hrawt (by simp)
  · intro hrawt
    rcases hcases with ⟨hrawf, _⟩ | ⟨_, metas, s3, hm, hins, hs'⟩
    · rw [hrawt] at hrawf; exact absurd hrawf (by simp)
    · have hnd1 : activePathsNodup
          (if g.toc.contains_new_object_list then s.deactivate_all_objects else s) := by
        split
        · unfold activePathsNodup FileScanner.deactivate_all_objects; simp
        · exact hnd
      have hnd2 := processObjects_nodup g.objects _ s2 hpo hnd1
      obtain ⟨hb3, hn3, ha3, hloc, hout⟩ := insert_data_block_ok s2 _ s3 hins hnd2
      have hm' := hm
      unfold FileScanner.get_active_raw_data_meta at hm'
      refine ⟨metas, hm, (omap_length _ _ _ hm').symm ▸ rfl, ?_, ?_, ?_⟩
      · intro j ao hj
        obtain ⟨b, hfb, hbj⟩ := omap_get? _ s2.active_objects metas hm' j ao hj
        cases hlk : alookup ao.path s2.object_registry with
        | none => rw [hlk] at hfb; exact absurd hfb (by simp)
        | some od =>
          rw [hlk] at hfb
          have hfb2 : (match od.latest_data_format with
              | Option.none => Option.none
              | some (DataFormat.rawData raw) => some raw) = some b := hfb
          cases hlf : od.latest_data_format with
          | none =>
            rw [hlf] at hfb2
            exact Option.noConfusion hfb2
          | some f0 =>
            rw [hlf] at hfb2
            cases f0 with
            | rawData raw =>
              have hrb : raw = b := Option.some.inj hfb2
              exact ⟨od, raw, rfl, hlf, by rw [hbj, hrb]⟩
      · rw [hs']
        show s3.data_blocks = _
        rw [hb3, hB2]
        have hstart : u64add (u64add g.raw_data_offset LEAD_IN_BYTES) s2.next_segment_start
            = s.next_segment_start + 28 + g.raw_data_offset := by
          rw [hS2]
          unfold LEAD_IN_BYTES
          rw [u64add_eq g.raw_data_offset 28 (by omega),
            u64add_eq (g.raw_data_offset + 28) s.next_segment_start (by omega)]
          omega
        have hlen : u64sub g.next_segment_offset g.raw_data_offset
            = g.next_segment_offset - g.raw_data_offset := u64sub_eq _ _ hr hn
        unfold DataBlock.from_segment
        rw [hstart, hlen]
      · intro j ao hj
        rw [hs']
        show alookup ao.path s3.object_registry = _
        have := hloc j ao hj
        rw [hB2] at this
        exact this

/-- Witness for C1: the two-channel test segment of `src/index.rs`
submitted to a fresh scanner. -/
theorem claim_C1_data_block_and_locations_witness :
    activePathsNodup FileScanner.new ∧
    sampleSegment1.raw_data_offset ≤ sampleSegment1.next_segment_offset ∧
    sampleSegment1.next_segment_offset < 2 ^ 64 ∧
    FileScanner.new.next_segment_start + 28 + sampleSegment1.raw_data_offset < 2 ^ 64 ∧
    ∃ s', FileScanner.new.add_segment_to_index sampleSegment1 = some s' ∧
      C1Conclusion FileScanner.new sampleSegment1 s' := by
  refine ⟨by decide, by decide, by decide, by decide, ?_⟩
  cases hok : FileScanner.new.add_segment_to_index sampleSegment1 with
  | some s1 =>
    exact ⟨s1, rfl, claim_C1_data_block_and_locations FileScanner.new sampleSegment1 s1
      (by decide) hok (by decide) (by decide) (by decide)⟩
  | none => exact absurd hok (by decide)

/-! ## Active-membership and format-absence lemmas -/

theorem processObject_active_mono (s : FileScanner) (o : ObjectMetaData) (s' : FileScanner)
    (h : FileScanner.processObject s o = .ok s') (a : ActiveObject)
    (ha : a ∈ s.active_objects) : a ∈ s'.active_objects := by
  obtain ⟨_, _, _, hact⟩ := processObject_ok s o s' h
  rcases hact with he | ⟨he, _⟩
  · rw [he]; exact ha
  · rw [he]; exact List.mem_append_left _ ha

theorem processObjects_active_mono :
    ∀ (objs : List ObjectMetaData) (s s2 : FileScanner),
      FileScanner.processObjects s objs = .ok s2 →
      ∀ a ∈ s.active_objects, a ∈ s2.active_objects := by
  intro objs
  induction objs with
  | nil =>
    intro s s2 h a ha
    simp only [FileScanner.processObjects, ScanStep.ok.injEq] at h
    rw [← h]
    exact ha
  | cons o rest ih =>
    intro s s2 h a ha
    simp only [FileScanner.processObjects] at h
    cases hstep : FileScanner.processObject s o with
    | panicked sp => rw [hstep] at h; exact absurd h (by simp)
    | ok smid =>
      rw [hstep] at h
      exact ih smid s2 h a (processObject_active_mono s o smid hstep a ha)

theorem update_or_activate_ok_active_mem (s : FileScanner) (o : ObjectMetaData)
    (s' : FileScanner) (h : s.update_or_activate_data_object o = .ok s') :
    (⟨o.path⟩ : ActiveObject) ∈ s'.active_objects := by
  unfold FileScanner.update_or_activate_data_object at h
  by_cases hany : (s.active_objects.any (fun ao => ao.path == o.path)) = true
  · rw [if_pos hany] at h
    cases hl : alookup o.path s.object_registry with
    | none => rw [hl] at h; exact absurd h (by simp)
    | some od =>
      rw [hl] at h
      simp only [ScanStep.ok.injEq] at h
      subst h
      obtain ⟨ao, hao, hpe⟩ := List.any_eq_true.mp hany
      have hpe' : ao.path = o.path := by simpa using hpe
      have hao2 : ao = ⟨o.path⟩ := by cases ao; simpa using hpe'
      show (⟨o.path⟩ : ActiveObject) ∈ s.active_objects
      rw [← hao2]
      exact hao
  · rw [if_neg hany] at h
    simp only [ScanStep.ok.injEq] at h
    subst h
    have hfr := update_meta_object_frame
      { s with active_objects := s.active_objects ++ [⟨o.path⟩] } o
    rw [hfr.2.2]
    exact List.mem_append_right _ (by simp)

theorem processObjects_activates :
    ∀ (objs : List ObjectMetaData) (s s2 : FileScanner) (obj : ObjectMetaData),
      FileScanner.processObjects s objs = .ok s2 → obj ∈ objs →
      obj.raw_data_index = .matchPrevious →
      (⟨obj.path⟩ : ActiveObject) ∈ s2.active_objects := by
  intro objs
  induction objs with
  | nil => intro s s2 obj _ hmem _; simp at hmem
  | cons o rest ih =>
    intro s s2 obj h hmem hmp
    simp only [FileScanner.processObjects] at h
    cases hstep : FileScanner.processObject s o with
    | panicked sp => rw [hstep] at h; exact absurd h (by simp)
    | ok smid =>
      rw [hstep] at h
      rcases List.mem_cons.mp hmem with h1 | h2
      · subst h1
        have hstep' := hstep
        unfold FileScanner.processObject at hstep'
        rw [hmp] at hstep'
        exact processObjects_active_mono rest smid s2 h _
          (update_or_activate_ok_active_mem s obj smid hstep')
      · exact ih smid s2 obj h h2 hmp

theorem processObject_noformat (s : FileScanner) (o : ObjectMetaData) (s' : FileScanner)
    (p : String) (h : FileScanner.processObject s o = .ok s')
    (hno : o.path = p → ∀ m, o.raw_data_index ≠ .rawData m)
    (hf : noLatestFormat p s) : noLatestFormat p s' := by
  obtain ⟨hlook, _, _, _⟩ := processObject_ok s o s' h
  intro od hod
  rw [hlook p] at hod
  by_cases hp : o.path = p
  · rw [if_pos hp] at hod
    have hidx : DataFormat.from_index o.raw_data_index = Option.none := by
      cases hidx : o.raw_data_index with
      | rawData m => exact absurd hidx (hno hp m)
      | none => rfl
      | matchPrevious => rfl
      | daqmx => rfl
    cases hl : alookup p s.object_registry with
    | some od0 =>
      rw [hl] at hod
      have hodq : od = od0.update o := (Option.some.inj hod).symm
      rw [hodq, ObjectData.update_latest, hidx]
      exact hf od0 hl
    | none =>
      rw [hl] at hod
      have hodq : od = ObjectData.from_metadata o := (Option.some.inj hod).symm
      rw [hodq, ObjectData.from_metadata_latest]
      exact hidx
  · rw [if_neg hp] at hod
    exact hf od hod

theorem processObjects_noformat :
    ∀ (objs : List ObjectMetaData) (s s2 : FileScanner) (p : String),
      FileScanner.processObjects s objs = .ok s2 →
      (∀ o ∈ objs, o.path = p → ∀ m, o.raw_data_index ≠ .rawData m) →
      noLatestFormat p s → noLatestFormat p s2 := by
  intro objs
  induction objs with
  | nil =>
    intro s s2 p h _ hf
    simp only [FileScanner.processObjects, ScanStep.ok.injEq] at h
    rw [← h]
    exact hf
  | cons o rest ih =>
    intro s s2 p h hno hf
    simp only [FileScanner.processObjects] at h
    cases hstep : FileScanner.processObject s o with
    | panicked sp => rw [hstep] at h; exact absurd h (by simp)
    | ok smid =>
      rw [hstep] at h
      exact ih smid s2 p h (fun o' ho' => hno o' (by simp [ho']))
        (processObject_noformat s o smid p hstep (hno o (by simp)) hf)

/-! ## Claims C2 and C3 -/

/-- C2 counterexample: the claim says a `MatchPrevious` object with no
previous `latest_data_format` makes `add_segment` fail with the
recoverable error `MissingPreviousIndex`, neither succeeding silently
nor aborting.  On the code: with `contains_raw_data` clear the call
*succeeds silently*, registering the object with an empty
`latest_data_format`; with `contains_raw_data` set the call *panics*
(aborts) inside `get_active_raw_data_meta`.  No error value exists:
`add_segment_to_index` returns `()` in the source. -/
theorem claim_C2_counterexample :
    ((FileScanner.new.add_segment_to_index mpSegmentMeta).map
      (fun s' => (alookup "group/ch1" s'.object_registry).map
        (fun od => od.latest_data_format))) = some (some Option.none) ∧
    (FileScanner.new.add_segment_run mpSegmentRaw).isPanicked = true := by
  constructor
  · decide
  · decide

/-- C2 amended: for every scanner state with a fully registered
active list, and every segment containing an object whose
`raw_data_index` is `MatchPrevious` while that object's registry entry
has no `latest_data_format` (including an object never seen before),
`add_segment` produces no `MissingPreviousIndex` error: the object
list is always processed successfully (a non-`RawData` index never
sets the format).  With `contains_raw_data` clear the call succeeds
silently, and — when no object in the segment sets that path's format
with a `RawData` index — the format is still unset afterwards.  With
`contains_raw_data` set and no such same-path `RawData` entry, the
call panics (aborts) while collecting the active formats. -/
theorem claim_C2_missing_previous_behaviour
    (s : FileScanner) (g : SegmentMetaData) (obj : ObjectMetaData)
    (hreg : activeRegistered s)
    (hmem : obj ∈ g.objects)
    (hmp : obj.raw_data_index = .matchPrevious)
    (hnofmt : noLatestFormat obj.path s) :
    (∃ s2, FileScanner.processObjects
        (if g.toc.contains_new_object_list then s.deactivate_all_objects else s)
        g.objects = .ok s2) ∧
    (g.toc.contains_raw_data = false →
      ∃ s', s.add_segment_to_index g = some s' ∧
        ((∀ o ∈ g.objects, o.path = obj.path → ∀ m, o.raw_data_index ≠ .rawData m) →
          noLatestFormat obj.path s')) ∧
    (g.toc.contains_raw_data = true →
      (∀ o ∈ g.objects, o.path = obj.path → ∀ m, o.raw_data_index ≠ .rawData m) →
      ∃ sp, s.add_segment_run g = .panicked sp) := by
  have hreg1 : activeRegistered
      (if g.toc.contains_new_object_list then s.deactivate_all_objects else s) := by
    split
    · intro ao hao
      simp [FileScanner.deactivate_all_objects] at hao
    · exact hreg
  have hf1 : noLatestFormat obj.path
      (if g.toc.contains_new_object_list then s.deactivate_all_objects else s) := by
    split
    · exact hnofmt
    · exact hnofmt
  obtain ⟨s2, hpo, _⟩ := processObjects_no_panic g.objects _ hreg1
  refine ⟨⟨s2, hpo⟩, ?_, ?_⟩
  · intro hrawf
    have hrun : s.add_segment_run g = .ok
        { s2 with next_segment_start := u64add s2.next_segment_start g.total_size_bytes } := by
      unfold FileScanner.add_segment_run
      rw [hpo]
      simp only [ScanStep.andThen]
      rw [hrawf, if_neg (by decide)]
    refine ⟨_, add_segment_to_index_of_run_ok s g _ hrun, ?_⟩
    intro hnoraw
    have hf2 := processObjects_noformat g.objects _ s2 obj.path hpo hnoraw hf1
    exact hf2
  · intro hrawt hnoraw
    have hf2 := processObjects_noformat g.objects _ s2 obj.path hpo hnoraw hf1
    have hmem2 : (⟨obj.path⟩ : ActiveObject) ∈ s2.active_objects :=
      processObjects_activates g.objects _ s2 obj hpo hmem hmp
    have hnone : s2.get_active_raw_data_meta = Option.none := by
      unfold FileScanner.get_active_raw_data_meta
      apply omap_eq_none _ _ _ hmem2
      show (match alookup obj.path s2.object_registry with
        | Option.none => Option.none
        | some od =>
          match od.latest_data_format with
          | Option.none => Option.none
          | some (DataFormat.rawData raw) => some raw) = Option.none
      cases hl : alookup obj.path s2.object_registry with
      | none => rfl
      | some od =>
        show (match od.latest_data_format with
          | Option.none => Option.none
          | some (DataFormat.rawData raw) => some raw) = Option.none
        rw [hf2 od hl]
    refine ⟨s2, ?_⟩
    unfold FileScanner.add_segment_run
    rw [hpo]
    simp only [ScanStep.andThen]
    rw [hrawt, if_pos rfl, rawDataStep_none s2 g hnone]

/-- Witness for the amended C2: the fresh `MatchPrevious` object in a
meta-only segment (silent success, format still unset) and in a
two-object raw-data segment (panic). -/
theorem claim_C2_missing_previous_behaviour_witness :
    ((∃ s2, FileScanner.processObjects
        (if mpSegmentMeta.toc.contains_new_object_list then
          FileScanner.new.deactivate_all_objects else FileScanner.new)
        mpSegmentMeta.objects = .ok s2) ∧
      (mpSegmentMeta.toc.contains_raw_data = false →
        ∃ s', FileScanner.new.add_segment_to_index mpSegmentMeta = some s' ∧
          ((∀ o ∈ mpSegmentMeta.objects, o.path = mpObj.path →
              ∀ m, o.raw_data_index ≠ .rawData m) →
            noLatestFormat mpObj.path s'))) ∧
    (mpSegmentRawMulti.toc.contains_raw_data = true →
      (∀ o ∈ mpSegmentRawMulti.objects, o.path = mpObj.path →
        ∀ m, o.raw_data_index ≠ .rawData m) →
      ∃ sp, FileScanner.new.add_segment_run mpSegmentRawMulti = .panicked sp) := by
  have h1 := claim_C2_missing_previous_behaviour FileScanner.new mpSegmentMeta mpObj
    (by decide) (by decide) rfl (by decide)
  have h2 := claim_C2_missing_previous_behaviour FileScanner.new mpSegmentRawMulti mpObj
    (by decide) (by decide) rfl (by decide)
  exact ⟨⟨h1.1, h1.2.1⟩, h2.2.2⟩

/-- C3 counterexample: the claim says a failing `add_segment` leaves
the scanner exactly as before.  Submitting the fresh-`MatchPrevious`
raw-data segment to a new scanner panics, and the state at the panic
differs from the initial state: the object list had already been
applied. -/
theorem claim_C3_counterexample :
    ((FileScanner.new.add_segment_run mpSegmentRaw).panickedState).map
      (fun sp => decide (sp = FileScanner.new)) = some false := by
  decide

/-- C3 amended: `add_segment` never returns an error; its only failure
is a panic while building the data block.  A panicking call leaves
`data_blocks` and `next_segment_start` unchanged, but
`active_objects` and `object_registry` retain the object-list updates
already applied: the panic state is exactly the state after the
segment's object list was processed, so the scanner can be left
partially updated. -/
theorem claim_C3_failure_leaves_metadata_applied
    (s : FileScanner) (g : SegmentMetaData) (sp : FileScanner)
    (hreg : activeRegistered s)
    (hpan : s.add_segment_run g = .panicked sp) :
    sp.data_blocks = s.data_blocks ∧
    sp.next_segment_start = s.next_segment_start ∧
    FileScanner.processObjects
      (if g.toc.contains_new_object_list then s.deactivate_all_objects else s)
      g.objects = .ok sp := by
  obtain ⟨_, hpo, _⟩ := add_segment_panicked_cases s g sp hreg hpan
  have hfr := processObjects_ok_frame g.objects _ sp hpo
  have hs1b : (if g.toc.contains_new_object_list then s.deactivate_all_objects
      else s).data_blocks = s.data_blocks := by
    split <;> rfl
  have hs1s : (if g.toc.contains_new_object_list then s.deactivate_all_objects
      else s).next_segment_start = s.next_segment_start := by
    split <;> rfl
  exact ⟨hfr.1.trans hs1b, hfr.2.trans hs1s, hpo⟩

/-- Witness for the amended C3: the panic on the concrete
`MatchPrevious` raw-data segment keeps blocks and offset but keeps the
applied object-list updates. -/
theorem claim_C3_failure_leaves_metadata_applied_witness :
    activeRegistered FileScanner.new ∧
    ∃ sp, FileScanner.new.add_segment_run mpSegmentRaw = .panicked sp ∧
      sp.data_blocks = FileScanner.new.data_blocks ∧
      sp.next_segment_start = FileScanner.new.next_segment_start ∧
      FileScanner.processObjects
        (if mpSegmentRaw.toc.contains_new_object_list then
          FileScanner.new.deactivate_all_objects else FileScanner.new)
        mpSegmentRaw.objects = .ok sp := by
  refine ⟨by decide, ?_⟩
  cases hpan : FileScanner.new.add_segment_run mpSegmentRaw with
  | panicked sp =>
    exact ⟨sp, rfl, claim_C3_failure_leaves_metadata_applied FileScanner.new mpSegmentRaw sp
      (by decide) hpan⟩
  | ok s1 =>
    have hpk : (FileScanner.new.add_segment_run mpSegmentRaw).isPanicked = true := by decide
    rw [hpan] at hpk
    exact absurd hpk (by simp [ScanStep.isPanicked])

/-! ## Claim C9 -/

theorem add_segment_nodup (s : FileScanner) (g : SegmentMetaData) (s' : FileScanner)
    (hok : s.add_segment_to_index g = some s') (hnd : activePathsNodup s) :
    activePathsNodup s' := by
  obtain ⟨s2, hpo, hcases⟩ := add_segment_ok_cases s g s' hok
  have hnd1 : activePathsNodup
      (if g.toc.contains_new_object_list then s.deactivate_all_objects else s) := by
    split
    · unfold activePathsNodup FileScanner.deactivate_all_objects; simp
    · exact hnd
  have hnd2 := processObjects_nodup g.objects _ s2 hpo hnd1
  rcases hcases with ⟨_, hs'⟩ | ⟨_, metas, s3, _, hins, hs'⟩
  · rw [hs']
    exact hnd2
  · have ha3 := (locLoop_frame s2.active_objects _ _ _ s3 hins).2.2
    rw [hs']
    unfold activePathsNodup at hnd2 ⊢
    show (s3.active_objects.map ActiveObject.path).Nodup
    rw [ha3]
    exact hnd2

theorem runSegments_nodup :
    ∀ (segs : List SegmentMetaData) (s s' : FileScanner),
      FileScanner.runSegments s segs = some s' → activePathsNodup s →
      activePathsNodup s' := by
  intro segs
  induction segs with
  | nil =>
    intro s s' h hnd
    simp only [FileScanner.runSegments, Option.some.injEq] at h
    rw [← h]
    exact hnd
  | cons g rest ih =>
    intro s s' h hnd
    simp only [FileScanner.runSegments] at h
    cases hstep : s.add_segment_to_index g with
    | none => rw [hstep] at h; exact absurd h (by simp)
    | some smid =>
      rw [hstep] at h
      exact ih smid s' h (add_segment_nodup s g smid hstep hnd)

/-- C9: after every sequence of `add_segment` calls on a
`FileScanner`, no path appears twice in `active_objects`: activating
an object whose path is already active updates the existing entry in
place instead of appending a duplicate. -/
theorem claim_C9_active_list_unique (segs : List SegmentMetaData) (s' : FileScanner)
    (hrun : FileScanner.runSegments FileScanner.new segs = some s') :
    activePathsNodup s' :=
  runSegments_nodup segs FileScanner.new s' hrun (by decide)

/-- Witness for C9: a run that activates two channels and then
re-declares one of them. -/
theorem claim_C9_active_list_unique_witness :
    ∃ s', FileScanner.runSegments FileScanner.new [sampleSegment1, sampleSegment2] = some s' ∧
      activePathsNodup s' := by
  cases hrun : FileScanner.runSegments FileScanner.new [sampleSegment1, sampleSegment2] with
  | some s' => exact ⟨s', rfl, claim_C9_active_list_unique [sampleSegment1, sampleSegment2] s' hrun⟩
  | none => exact absurd hrun (by decide)

/-! ## Claim C10 -/

theorem locLoop_latest :
    ∀ (l : List ActiveObject) (s : FileScanner) (idx i : Nat) (r : FileScanner),
      FileScanner.locLoop s idx i l = .ok r →
      ∀ p, (alookup p r.object_registry).map (fun od => od.latest_data_format) =
        (alookup p s.object_registry).map (fun od => od.latest_data_format) := by
  intro l
  induction l with
  | nil =>
    intro s idx i r h p
    simp only [FileScanner.locLoop, ScanStep.ok.injEq] at h
    rw [← h]
  | cons ao rest ih =>
    intro s idx i r h p
    simp only [FileScanner.locLoop] at h
    cases hl : alookup ao.path s.object_registry with
    | none => rw [hl] at h; exact absurd h (by simp)
    | some od =>
      rw [hl] at h
      rw [ih _ idx (i + 1) r h p]
      by_cases hp : ao.path = p
      · subst hp
        rw [alookup_aupdate_self, hl]
        rfl
      · rw [alookup_aupdate_ne p ao.path _ _ hp]

/-- C10: once an object's `latest_data_format` has been set by a
`RawData` index, no later segment ever clears it: a subsequent
`ObjectMetaData` for the same path with index `None` or
`MatchPrevious` leaves `latest_data_format` unchanged, and only an
object for that path carrying another `RawData` index can replace
it. -/
theorem claim_C10_latest_format_monotone
    (s : FileScanner) (g : SegmentMetaData) (s' : FileScanner)
    (p : String) (od : ObjectData) (f : DataFormat)
    (hok : s.add_segment_to_index g = some s')
    (hlk : alookup p s.object_registry = some od)
    (hf : od.latest_data_format = some f) :
    ∃ od', alookup p s'.object_registry = some od' ∧
      ∃ f', od'.latest_data_format = some f' ∧
        (f' = f ∨ ∃ obj ∈ g.objects, obj.path = p ∧
          ∃ m, obj.raw_data_index = .rawData m ∧ f' = .rawData m) := by
  obtain ⟨s2, hpo, hcases⟩ := add_segment_ok_cases s g s' hok
  have hlk1 : alookup p
      (if g.toc.contains_new_object_list then s.deactivate_all_objects
        else s).object_registry = some od := by
    split <;> exact hlk
  obtain ⟨od2, hlk2, f2, hf2, hsrc⟩ :=
    processObjects_latest g.objects _ s2 p od f hpo hlk1 hf
  rcases hcases with ⟨_, hs'⟩ | ⟨_, metas, s3, _, hins, hs'⟩
  · rw [hs']
    exact ⟨od2, hlk2, f2, hf2, hsrc⟩
  · unfold FileScanner.insert_data_block at hins
    have hmap := locLoop_latest s2.active_objects _ _ _ s3 hins p
    rw [hlk2] at hmap
    cases hlk3 : alookup p s3.object_registry with
    | none => rw [hlk3] at hmap; exact absurd hmap (by simp)
    | some od3 =>
      rw [hlk3] at hmap
      have hlat3 : od3.latest_data_format = some f2 := by
        have h3 : od3.latest_data_format = od2.latest_data_format := Option.some.inj hmap
        rw [h3, hf2]
      rw [hs']
      exact ⟨od3, hlk3, f2, hlat3, hsrc⟩

/-- Witness for C10: a scanner whose channel already carries a format
receives a meta-only `MatchPrevious` segment; the format survives. -/
theorem claim_C10_latest_format_monotone_witness :
    ∃ s', sampleScanner.add_segment_to_index mpSegmentMeta = some s' ∧
      ∃ od', alookup "group/ch1" s'.object_registry = some od' ∧
        ∃ f', od'.latest_data_format = some f' ∧
          (f' = DataFormat.rawData sampleMeta ∨
            ∃ obj ∈ mpSegmentMeta.objects, obj.path = "group/ch1" ∧
              ∃ m, obj.raw_data_index = .rawData m ∧ f' = .rawData m) := by
  cases hok : sampleScanner.add_segment_to_index mpSegmentMeta with
  | none => exact absurd hok (by decide)
  | some s' =>
    exact ⟨s', rfl,
      claim_C10_latest_format_monotone sampleScanner mpSegmentMeta s' "group/ch1"
        sampleObjData (DataFormat.rawData sampleMeta) hok (by decide) (by decide)⟩

/-! ## Claim C8 -/

theorem segSum_cons (g : SegmentMetaData) (rest : List SegmentMetaData) :
    segSum (g :: rest) = g.next_segment_offset + 28 + segSum rest := rfl

theorem add_segment_blocks (s : FileScanner) (g : SegmentMetaData) (s' : FileScanner)
    (hok : s.add_segment_to_index g = some s') :
    s'.next_segment_start = u64add s.next_segment_start (u64add g.next_segment_offset 28) ∧
    (s'.data_blocks = s.data_blocks ∨
      ∃ metas, s'.data_blocks =
        s.data_blocks ++ [DataBlock.from_segment g s.next_segment_start metas]) := by
  obtain ⟨s2, hpo, hcases⟩ := add_segment_ok_cases s g s' hok
  have hfr := processObjects_ok_frame g.objects _ s2 hpo
  have hs1b : (if g.toc.contains_new_object_list then s.deactivate_all_objects
      else s).data_blocks = s.data_blocks := by
    split <;> rfl
  have hs1s : (if g.toc.contains_new_object_list then s.deactivate_all_objects
      else s).next_segment_start = s.next_segment_start := by
    split <;> rfl
  have hB2 : s2.data_blocks = s.data_blocks := hfr.1.trans hs1b
  have hS2 : s2.next_segment_start = s.next_segment_start := hfr.2.trans hs1s
  rcases hcases with ⟨_, hs'⟩ | ⟨_, metas, s3, _, hins, hs'⟩
  · rw [hs']
    refine ⟨?_, Or.inl hB2⟩
    show u64add s2.next_segment_start g.total_size_bytes = _
    rw [hS2]
    rfl
  · unfold FileScanner.insert_data_block at hins
    obtain ⟨hb3, hn3, _⟩ := locLoop_frame s2.active_objects _ _ _ s3 hins
    rw [hs']
    constructor
    · show u64add s3.next_segment_start g.total_size_bytes = _
      rw [hn3, hS2]
      rfl
    · refine Or.inr ⟨metas, ?_⟩
      show s3.data_blocks = _
      rw [hb3]
      show s2.data_blocks ++ [DataBlock.from_segment g s2.next_segment_start metas] = _
      rw [hB2, hS2]

theorem runSegments_blocks_inv :
    ∀ (segs : List SegmentMetaData) (s s' : FileScanner),
      (∀ g ∈ segs, g.raw_data_offset ≤ g.next_segment_offset) →
      s.next_segment_start + segSum segs < 2 ^ 64 →
      List.Pairwise (fun a b => a.start < b.start) s.data_blocks →
      (∀ b ∈ s.data_blocks, b.start ≤ s.next_segment_start) →
      FileScanner.runSegments s segs = some s' →
      List.Pairwise (fun a b => a.start < b.start) s'.data_blocks ∧
      (∀ b ∈ s'.data_blocks, b.start ≤ s'.next_segment_start) := by
  intro segs
  induction segs with
  | nil =>
    intro s s' _ _ hpw hbd h
    simp only [FileScanner.runSegments, Option.some.injEq] at h
    rw [← h]
    exact ⟨hpw, hbd⟩
  | cons g rest ih =>
    intro s s' hr hov hpw hbd h
    simp only [FileScanner.runSegments] at h
    cases hstep : s.add_segment_to_index g with
    | none => rw [hstep] at h; exact absurd h (by simp)
    | some smid =>
      rw [hstep] at h
      have hrg : g.raw_data_offset ≤ g.next_segment_offset := hr g (by simp)
      rw [segSum_cons] at hov
      obtain ⟨hSmid, hBmid⟩ := add_segment_blocks s g smid hstep
      have hSmid' : smid.next_segment_start = s.next_segment_start + g.next_segment_offset + 28 := by
        rw [hSmid, u64add_eq g.next_segment_offset 28 (by omega),
          u64add_eq s.next_segment_start (g.next_segment_offset + 28) (by omega)]
        omega
      have hpw' : List.Pairwise (fun a b => a.start < b.start) smid.data_blocks := by
        rcases hBmid with hE | ⟨metas, hE⟩
        · rw [hE]; exact hpw
        · rw [hE, List.pairwise_append]
          refine ⟨hpw, by simp, ?_⟩
          intro a ha b hb
          have hbx : b = DataBlock.from_segment g s.next_segment_start metas := by
            simpa using hb
          have hstart : b.start = u64add (u64add g.raw_data_offset LEAD_IN_BYTES)
              s.next_segment_start := by
            rw [hbx]; rfl
          rw [hstart]
          unfold LEAD_IN_BYTES
          rw [u64add_eq g.raw_data_offset 28 (by omega),
            u64add_eq (g.raw_data_offset + 28) s.next_segment_start (by omega)]
          have := hbd a ha
          omega
      have hbd' : ∀ b ∈ smid.data_blocks, b.start ≤ smid.next_segment_start := by
        rcases hBmid with hE | ⟨metas, hE⟩
        · rw [hE]
          intro b hb
          have := hbd b hb
          omega
        · rw [hE]
          intro b hb
          rcases List.mem_append.mp hb with h1 | h2
          · have := hbd b h1
            omega
          · have hbx : b = DataBlock.from_segment g s.next_segment_start metas := by
              simpa using h2
            have hstart : b.start = u64add (u64add g.raw_data_offset LEAD_IN_BYTES)
                s.next_segment_start := by
              rw [hbx]; rfl
            rw [hstart]
            unfold LEAD_IN_BYTES
            rw [u64add_eq g.raw_data_offset 28 (by omega),
              u64add_eq (g.raw_data_offset + 28) s.next_segment_start (by omega)]
            omega
      exact ih smid s' (fun g' hg' => hr g' (by simp [hg'])) (by omega) hpw' hbd' h

/-- C8: for every sequence of segments submitted to one `FileScanner`
in which each segment satisfies `raw_data_offset ≤
next_segment_offset` and the running offsets do not overflow `u64`,
the data-block start offsets are strictly increasing. -/
theorem claim_C8_block_starts_increasing (segs : List SegmentMetaData) (s' : FileScanner)
    (hr : ∀ g ∈ segs, g.raw_data_offset ≤ g.next_segment_offset)
    (hov : segSum segs < 2 ^ 64)
    (hrun : FileScanner.runSegments FileScanner.new segs = some s') :
    ∀ (b : Nat) (x y : DataBlock), s'.data_blocks[b]? = some x →
      s'.data_blocks[b + 1]? = some y → x.start < y.start := by
  have hinv := runSegments_blocks_inv segs FileScanner.new s' hr
    (by simpa [FileScanner.new] using hov)
    (by simp [FileScanner.new])
    (by intro b hb; simp [FileScanner.new] at hb)
    hrun
  intro b x y hx hy
  have hp := hinv.1
  rw [List.pairwise_iff_getElem] at hp
  obtain ⟨hbx, hex⟩ := List.getElem?_eq_some_iff.mp hx
  obtain ⟨hby, hey⟩ := List.getElem?_eq_some_iff.mp hy
  have := hp b (b + 1) hbx hby (by omega)
  rw [hex, hey] at this
  exact this

/-- Witness for C8: two raw-data segments produce blocks at strictly
increasing starts. -/
theorem claim_C8_block_starts_increasing_witness :
    (∀ g ∈ [sampleSegment1, sampleSegment2],
      g.raw_data_offset ≤ g.next_segment_offset) ∧
    segSum [sampleSegment1, sampleSegment2] < 2 ^ 64 ∧
    ∃ s', FileScanner.runSegments FileScanner.new [sampleSegment1, sampleSegment2] = some s' ∧
      ∀ (b : Nat) (x y : DataBlock), s'.data_blocks[b]? = some x →
        s'.data_blocks[b + 1]? = some y → x.start < y.start := by
  refine ⟨by decide, by decide, ?_⟩
  cases hrun : FileScanner.runSegments FileScanner.new [sampleSegment1, sampleSegment2] with
  | some s' =>
    exact ⟨s', rfl, claim_C8_block_starts_increasing [sampleSegment1, sampleSegment2] s'
      (by decide) (by decide) hrun⟩
  | none => exact absurd hrun (by decide)

/-! ## Claim C4 -/

theorem omap_mem_forward (f : α → Option β) :
    ∀ (l : List α) (ys : List β), omap f l = some ys →
      ∀ a ∈ l, ∃ b, f a = some b ∧ b ∈ ys := by
  intro l
  induction l with
  | nil => intro ys _ a ha; simp at ha
  | cons hd tl ih =>
    intro ys h a ha
    simp only [omap] at h
    cases hf : f hd with
    | none => rw [hf] at h; exact absurd h (by simp)
    | some b =>
      rw [hf] at h
      cases ht : omap f tl with
      | none => rw [ht] at h; exact absurd h (by simp)
      | some bs =>
        rw [ht] at h
        have hys : ys = b :: bs := by
          have := h; simp at this; exact this.symm
        subst hys
        rcases List.mem_cons.mp ha with h1 | h2
        · subst h1; exact ⟨b, hf, by simp⟩
        · obtain ⟨c, hc1, hc2⟩ := ih bs ht a h2
          exact ⟨c, hc1, by simp [hc2]⟩

theorem omap_mem_backward (f : α → Option β) :
    ∀ (l : List α) (ys : List β), omap f l = some ys →
      ∀ b ∈ ys, ∃ a ∈ l, f a = some b := by
  intro l
  induction l with
  | nil =>
    intro ys h b hb
    simp only [omap, Option.some.injEq] at h
    rw [← h] at hb
    simp at hb
  | cons hd tl ih =>
    intro ys h b hb
    simp only [omap] at h
    cases hf : f hd with
    | none => rw [hf] at h; exact absurd h (by simp)
    | some c =>
      rw [hf] at h
      cases ht : omap f tl with
      | none => rw [ht] at h; exact absurd h (by simp)
      | some cs =>
        rw [ht] at h
        have hys : ys = c :: cs := by
          have := h; simp at this; exact this.symm
        subst hys
        rcases List.mem_cons.mp hb with h1 | h2
        · subst h1; exact ⟨hd, by simp, hf⟩
        · obtain ⟨a, ha1, ha2⟩ := ih cs ht b h2
          exact ⟨a, by simp [ha1], ha2⟩

/-- C4: for every `DataBlock` and every caller-supplied list of
(channel index, output-buffer length) requests, `DataBlock::read`
returns the minimum count of values actually placed into any
requested output buffer — each buffer receives
`min(number_of_values, buffer length)` values, so differing record
counts are governed by the minimum and a short buffer caps the
count. -/
theorem claim_C4_read_returns_min (b : DataBlock) (reqs : List (Nat × Nat)) (r : Nat)
    (h : b.read reqs = some r) :
    (∀ pr ∈ reqs, ∃ m, b.channels.get? pr.1 = some m ∧
      r ≤ min m.number_of_values pr.2) ∧
    (∃ pr ∈ reqs, ∃ m, b.channels.get? pr.1 = some m ∧
      r = min m.number_of_values pr.2) := by
  unfold DataBlock.read at h
  cases homap : omap (fun pr => (b.channels.get? pr.1).map
      (fun m => min m.number_of_values pr.2)) reqs with
  | none => rw [homap] at h; exact absurd h (by simp)
  | some counts =>
    rw [homap] at h
    have hmin := (List.min?_eq_some_iff (fun a => Nat.le_refl a)
      (fun a b => by omega) (fun a b c => Nat.le_min)).mp h
    constructor
    · intro pr hpr
      obtain ⟨c, hc1, hc2⟩ := omap_mem_forward _ reqs counts homap pr hpr
      cases hch : b.channels.get? pr.1 with
      | none => rw [hch] at hc1; exact absurd hc1 (by simp)
      | some m =>
        rw [hch] at hc1
        have hcm : c = min m.number_of_values pr.2 := by
          have := Option.some.inj hc1
          exact this.symm
        refine ⟨m, rfl, ?_⟩
        rw [← hcm]
        exact hmin.2 c hc2
    · obtain ⟨pr, hpr, hf⟩ := omap_mem_backward _ reqs counts homap r hmin.1
      cases hch : b.channels.get? pr.1 with
      | none => rw [hch] at hf; exact absurd hf (by simp)
      | some m =>
        rw [hch] at hf
        exact ⟨pr, hpr, m, hch, (Option.some.inj hf).symm⟩

/-- Witness for C4: a block with record counts 1000 and 800 read into
buffers of lengths 500 and 2000 returns 500. -/
theorem claim_C4_read_returns_min_witness :
    sampleBlock.read [(0, 500), (1, 2000)] = some 500 ∧
    ((∀ pr ∈ [((0 : Nat), (500 : Nat)), (1, 2000)], ∃ m,
        sampleBlock.channels.get? pr.1 = some m ∧
        500 ≤ min m.number_of_values pr.2) ∧
      (∃ pr ∈ [((0 : Nat), (500 : Nat)), (1, 2000)], ∃ m,
        sampleBlock.channels.get? pr.1 = some m ∧
        500 = min m.number_of_values pr.2)) :=
  ⟨by decide, claim_C4_read_returns_min sampleBlock [(0, 500), (1, 2000)] 500 (by decide)⟩

/-! ## Claim C5 -/

/-- C5: for every call to `write_channels`, the emitted segment's ToC
has `contains_meta_data = !matches_live`, `contains_new_object_list =
!matches_live`, `contains_raw_data = true`, `data_is_interleaved =
(layout = interleaved)`; and the metadata block listing each channel
path with a `RawData` index is included exactly when `!matches_live`
and omitted when `matches_live`. -/
theorem claim_C5_writer_toc_and_metadata (idx : WriterIndex) (channels : List String)
    (values_len : Nat) (dt : DataType) (layout : DataLayout) (seg : WrittenSegment)
    (h : write_channels idx channels values_len dt layout = some seg) :
    ∃ raw, MultiChannelSlice.from_slice values_len channels.length dt = some raw ∧
      (let chans := channels.zip (raw.data_structure.map DataFormat.rawData)
       let matches_live := (idx.check_write_values chans).1
       seg.toc.contains_meta_data = !matches_live ∧
       seg.toc.contains_new_object_list = !matches_live ∧
       seg.toc.contains_raw_data = true ∧
       seg.toc.data_is_interleaved = decide (layout = DataLayout.interleaved) ∧
       seg.meta_data.isSome = !matches_live ∧
       (matches_live = false → seg.meta_data = some
         { objects := (idx.check_write_values chans).2.map (fun pr =>
             { path := pr.1, properties := [], raw_data_index := pr.2 }) })) := by
  unfold write_channels at h
  cases hfs : MultiChannelSlice.from_slice values_len channels.length dt with
  | none => rw [hfs] at h; exact absurd h (by simp)
  | some raw =>
    rw [hfs] at h
    simp only [Option.some.injEq] at h
    refine ⟨raw, rfl, ?_⟩
    dsimp only
    rw [← h]
    unfold write_segment
    cases hb : (idx.check_write_values
        (channels.zip (raw.data_structure.map DataFormat.rawData))).1 with
    | false => simp [hb]
    | true => simp [hb]

/-- Witness for C5: writing two channels of three values each against
an empty live layout emits a full-metadata segment. -/
theorem claim_C5_writer_toc_and_metadata_witness :
    ∃ seg, write_channels sampleWriterIndex ["group/ch1", "group/ch2"] 6
        DataType.doubleFloat DataLayout.contigious = some seg ∧
      ∃ raw, MultiChannelSlice.from_slice 6 (["group/ch1", "group/ch2"] : List String).length
          DataType.doubleFloat = some raw ∧
        (let chans := (["group/ch1", "group/ch2"] : List String).zip
          (raw.data_structure.map DataFormat.rawData)
         let matches_live := (sampleWriterIndex.check_write_values chans).1
         seg.toc.contains_meta_data = !matches_live ∧
         seg.toc.contains_new_object_list = !matches_live ∧
         seg.toc.contains_raw_data = true ∧
         seg.toc.data_is_interleaved = decide (DataLayout.contigious = DataLayout.interleaved) ∧
         seg.meta_data.isSome = !matches_live ∧
         (matches_live = false → seg.meta_data = some
           { objects := (sampleWriterIndex.check_write_values chans).2.map (fun pr =>
               { path := pr.1, properties := [], raw_data_index := pr.2 }) })) := by
  cases hw : write_channels sampleWriterIndex ["group/ch1", "group/ch2"] 6
      DataType.doubleFloat DataLayout.contigious with
  | none => exact absurd hw (by decide)
  | some seg =>
    exact ⟨seg, rfl, claim_C5_writer_toc_and_metadata sampleWriterIndex
      ["group/ch1", "group/ch2"] 6 DataType.doubleFloat DataLayout.contigious seg hw⟩

end Tedium


